import Mathlib

/-!
Verification of the pallas query-caching library.

The definitions below are a shallow embedding of the Python sources:

* `src/pallas/csv.py` — the custom Athena CSV codec,
* `src/pallas/results.py` — `QueryResults.save` / `QueryResults.load`,
* `src/pallas/utils.py` — the `Fibonacci` backoff iterator,
* `src/pallas/caching.py` — `AthenaCache` and its key derivation,
* `src/pallas/client.py` — the `Query` polling state machine,
* `src/pallas/info.py` — `QueryInfo` terminal states.

Python strings are modelled as `List Char`; `None` becomes `none`;
functions that raise exceptions return `Except`.
-/

namespace Pallas

/-! ### CSV codec (src/pallas/csv.py)

The tokenizer in the source reads the stream in chunks of
`io.DEFAULT_BUFFER_SIZE`; chunking does not affect which characters are
seen in which order, so the stream is modelled as the full `List Char`.
-/

/-- Control tokens produced by the tokenizer: `","` (field separator) and
`"\n"` (line separator).  The end-of-file control `""` is modelled as
`none` in an `Option Control`. -/
inductive Control where
  | comma
  | newline
deriving DecidableEq, Repr

/-- Errors raised by the CSV codec and by `QueryResults.load`
(`ValueError` / `StopIteration` in the source, distinguished by message). -/
inductive CsvError where
  | unterminatedQuote
  | valueNotQuoted (raw : List Char)
  | invalidQuoting (raw : List Char)
  | missingTrailingNewline
  | missingColumnName
  | missingColumnType
  | missingHeaderRow
deriving DecidableEq, Repr

/-- Nullable CSV cell (`CSVValue = Optional[str]` in the source). -/
abbrev CSVValue := Option (List Char)

/-- One CSV record (`CSVRow = Sequence[CSVValue]`). -/
abbrev CSVRow := List CSVValue

/-- Embeds `value.replace('"', '""')` from `_encode_value`. -/
def encodeQuotes : List Char → List Char
  | [] => []
  | c :: rest =>
    if c = '"' then '"' :: '"' :: encodeQuotes rest
    else c :: encodeQuotes rest

/-- Embeds `_encode_value`: `None` becomes the empty field, any string is
emitted double-quoted with internal quotes doubled. -/
def _encode_value : CSVValue → List Char
  | none => []
  | some v => '"' :: (encodeQuotes v ++ ['"'])

/-- Embeds `",".join(_encode_value(v) for v in row)` from `write_csv`. -/
def writeRow : CSVRow → List Char
  | [] => []
  | [cell] => _encode_value cell
  | cell :: rest => _encode_value cell ++ ',' :: writeRow rest

/-- Embeds `write_csv`: each row is written as the comma-joined encoded
cells followed by a newline. -/
def write_csv (data : List CSVRow) : List Char :=
  (data.map fun row => writeRow row ++ ['\n']).flatten

/-- Embeds `raw[1:-1].split('""')` from `_decode_value`: leftmost
non-overlapping splitting on the two-character separator `""`. -/
def splitDQ : List Char → List (List Char)
  | [] => [[]]
  | [c] => [[c]]
  | c1 :: c2 :: rest =>
    if c1 = '"' ∧ c2 = '"' then
      [] :: splitDQ rest
    else
      match splitDQ (c2 :: rest) with
      | [] => [[c1]]
      | p :: ps => (c1 :: p) :: ps

/-- Embeds `'"'.join(parts)` from `_decode_value`. -/
def joinQuote : List (List Char) → List Char
  | [] => []
  | [p] => p
  | p :: ps => p ++ '"' :: joinQuote ps

/-- Embeds `_decode_value`: the empty field decodes to `None`; otherwise
the raw value must start and end with a quote, is stripped of the outer
quotes, split on doubled quotes, checked for stray quotes, and re-joined
with single quotes. -/
def _decode_value (raw : List Char) : Except CsvError CSVValue :=
  if raw = [] then .ok none
  else if raw.head? = some '"' ∧ raw.getLast? = some '"' then
    let parts := splitDQ ((raw.drop 1).dropLast)
    if parts.any (fun p => p.any (fun c => c = '"')) then
      .error (.invalidQuoting raw)
    else
      .ok (some (joinQuote parts))
  else
    .error (.valueNotQuoted raw)

/-- Embeds the `_tokenize` loop.  The first argument is the unread input,
the second the accumulated raw field value (`value` in the source), the
third the `quoted` flag.  A `"` is appended to the value and toggles
`quoted`; inside quotes every other character is literal; outside quotes
`,` and `\n` flush the value as a token; end of input inside a quoted
value is an error; otherwise the final token carries the EOF control
`none`. -/
def tokenizeAux : List Char → List Char → Bool →
    Except CsvError (List (List Char × Option Control))
  | [], value, quoted =>
    if quoted then .error .unterminatedQuote else .ok [(value, none)]
  | c :: rest, value, quoted =>
    if c = '"' then
      tokenizeAux rest (value ++ ['"']) (!quoted)
    else if quoted then
      tokenizeAux rest (value ++ [c]) true
    else if c = ',' then
      (tokenizeAux rest [] false).map (fun ts => (value, some .comma) :: ts)
    else if c = '\n' then
      (tokenizeAux rest [] false).map (fun ts => (value, some .newline) :: ts)
    else
      tokenizeAux rest (value ++ [c]) false

/-- Embeds `_tokenize` applied to a whole stream. -/
def tokenize (input : List Char) : Except CsvError (List (List Char × Option Control)) :=
  tokenizeAux input [] false

/-- Embeds the row-building loop of `read_csv`: a token with a control
appends its decoded value to the current row; a newline control emits the
row; the EOF token appends nothing; after the loop a non-empty pending
row means the trailing newline was missing. -/
def readRows : List (List Char × Option Control) → CSVRow →
    Except CsvError (List CSVRow)
  | [], row => if row = [] then .ok [] else .error .missingTrailingNewline
  | (v, ctrl) :: ts, row =>
    match ctrl with
    | none => readRows ts row
    | some .comma => do
      let d ← _decode_value v
      readRows ts (row ++ [d])
    | some .newline => do
      let d ← _decode_value v
      let rest ← readRows ts []
      .ok ((row ++ [d]) :: rest)

/-- Embeds `read_csv` consumed to a list (as `QueryResults.load` does). -/
def read_csv (input : List Char) : Except CsvError (List CSVRow) := do
  let ts ← tokenize input
  readRows ts []

/-! ### QueryResults serialization (src/pallas/results.py) -/

/-- Embeds the persistent state of `QueryResults`: column names, column
types and the rows of nullable string cells. -/
structure QueryResults where
  column_names : List (List Char)
  column_types : List (List Char)
  data : List (List (Option (List Char)))
deriving DecidableEq, Repr

/-- Embeds `QueryResults.save`: writes the column-names row, the
column-types row, then the data rows, all to one stream.  The header rows
hold plain strings, hence all their cells are `some`. -/
def QueryResults.save (r : QueryResults) : List Char :=
  write_csv [r.column_names.map some, r.column_types.map some] ++ write_csv r.data

/-- Embeds `QueryResults.load`: reads all CSV rows, takes the first two as
column names and column types (fewer than two rows raises
`StopIteration`, modelled as `missingHeaderRow`), rejects null header
cells, and keeps the remaining rows as data. -/
def QueryResults.load (input : List Char) : Except CsvError QueryResults := do
  let rows ← read_csv input
  match rows with
  | names :: types :: data =>
    if names.any (fun v => v = none) then .error .missingColumnName
    else if types.any (fun v => v = none) then .error .missingColumnType
    else .ok ⟨names.map (fun v => v.getD []), types.map (fun v => v.getD []), data⟩
  | _ => .error .missingHeaderRow

/-! ### Proof infrastructure for the CSV codec -/

/-- Characters that the tokenizer treats as plain content outside quotes
(neither a quote, a comma, nor a newline). -/
def plainChar (c : Char) : Bool := ¬(c = '"' ∨ c = ',' ∨ c = '\n')

/-- Expected token stream of one complete (newline-terminated) row. -/
def rowTokens : CSVRow → List (List Char × Option Control)
  | [] => [([], some .newline)]
  | [cell] => [(_encode_value cell, some .newline)]
  | cell :: rest => (_encode_value cell, some .comma) :: rowTokens rest

/-- Expected token stream of a final row fragment with no newline. -/
def partialRowTokens : CSVRow → List (List Char × Option Control)
  | [] => [([], none)]
  | [cell] => [(_encode_value cell, none)]
  | cell :: rest => (_encode_value cell, some .comma) :: partialRowTokens rest

/-- Splitting a char list at every single quote character; reference shape
for `splitDQ` applied to a quote-doubled string. -/
def splitQ : List Char → List (List Char)
  | [] => [[]]
  | c :: rest =>
    if c = '"' then [] :: splitQ rest
    else match splitQ rest with
      | [] => [[c]]
      | p :: ps => (c :: p) :: ps

deriving instance DecidableEq for Except

/-- Concrete sample used to witness the round-trip theorem: one row with a
null cell, an empty-string cell, and a cell containing an embedded quote,
comma and newline. -/
def sampleResults : QueryResults :=
  ⟨[['n']], [['t']], [[none, some [], some ['"', ',', '\n']]]⟩

/-! ### Backoff policy (src/pallas/utils.py) -/

/-- Embeds the generator `Fibonacci.__iter__` with `max_value = some m`.
The arguments `a` and `b` are the generator state: while `a < max_value`
the generator yields `a` and advances to `(b, a + b)`; once `a` reaches
the maximum it yields `max_value` forever.  `fibIter m a b n` is the
`n`-th value yielded from state `(a, b)`. -/
def fibIter (m : Nat) (a b : Nat) : Nat → Nat
  | 0 => if a < m then a else m
  | n + 1 => if a < m then fibIter m b (a + b) n else m

/-- Embeds the delay sequence `Query.backoff = Fibonacci(max_value=60)`
(src/pallas/client.py) read as a function from poll index to delay:
`backoffSeq m n` is the `n`-th value yielded by `Fibonacci(max_value=m)`,
whose generator starts from `a = b = 1`. -/
def backoffSeq (m : Nat) (n : Nat) : Nat := fibIter m 1 1 n

/-- Mathematical Fibonacci numbers with `fib 0 = fib 1 = 1`, the reference
sequence the backoff policy clamps. -/
def fib : Nat → Nat
  | 0 => 1
  | 1 => 1
  | n + 2 => fib n + fib (n + 1)

/-! ### SHA-256 (FIPS 180-4), embedding `hashlib.sha256(...).hexdigest()`
as used by `_get_execution_key` in src/pallas/caching.py.

Messages and digests are lists of byte values (`Nat < 256`); 32-bit words
are `Nat` reduced modulo `2^32` after every arithmetic operation. -/

/-- Reduction modulo `2^32`. -/
def w32 (x : Nat) : Nat := x % 4294967296

/-- Right rotation of a 32-bit word. -/
def rotr (n x : Nat) : Nat := w32 ((x >>> n) ||| ((x % (2 ^ n)) <<< (32 - n)))

/-- Choice function `Ch(x,y,z)` of SHA-256. -/
def ch (x y z : Nat) : Nat := (x &&& y) ^^^ ((x ^^^ 4294967295) &&& z)

/-- Majority function `Maj(x,y,z)` of SHA-256. -/
def maj (x y z : Nat) : Nat := (x &&& y) ^^^ (x &&& z) ^^^ (y &&& z)

/-- Big sigma-0 of SHA-256. -/
def bigSigma0 (x : Nat) : Nat := rotr 2 x ^^^ rotr 13 x ^^^ rotr 22 x

/-- Big sigma-1 of SHA-256. -/
def bigSigma1 (x : Nat) : Nat := rotr 6 x ^^^ rotr 11 x ^^^ rotr 25 x

/-- Small sigma-0 of SHA-256. -/
def smallSigma0 (x : Nat) : Nat := rotr 7 x ^^^ rotr 18 x ^^^ (x >>> 3)

/-- Small sigma-1 of SHA-256. -/
def smallSigma1 (x : Nat) : Nat := rotr 17 x ^^^ rotr 19 x ^^^ (x >>> 10)

/-- The 64 SHA-256 round constants. -/
def K256 : List Nat :=
  [1116352408, 1899447441, 3049323471, 3921009573, 961987163,
   1508970993, 2453635748, 2870763221, 3624381080, 310598401,
   607225278, 1426881987, 1925078388, 2162078206, 2614888103,
   3248222580, 3835390401, 4022224774, 264347078, 604807628,
   770255983, 1249150122, 1555081692, 1996064986, 2554220882,
   2821834349, 2952996808, 3210313671, 3336571891, 3584528711,
   113926993, 338241895, 666307205, 773529912, 1294757372,
   1396182291, 1695183700, 1986661051, 2177026350, 2456956037,
   2730485921, 2820302411, 3259730800, 3345764771, 3516065817,
   3600352804, 4094571909, 275423344, 430227734, 506948616,
   659060556, 883997877, 958139571, 1322822218, 1537002063,
   1747873779, 1955562222, 2024104815, 2227730452, 2361852424,
   2428436474, 2756734187, 3204031479, 3329325298]

/-- Hash state: the eight 32-bit registers. -/
structure Hash8 where
  a : Nat
  b : Nat
  c : Nat
  d : Nat
  e : Nat
  f : Nat
  g : Nat
  h : Nat
deriving DecidableEq, Repr

/-- Initial SHA-256 hash value. -/
def sha256H0 : Hash8 :=
  ⟨1779033703, 3144134277, 1013904242, 2773480762,
   1359893119, 2600822924, 528734635, 1541459225⟩

/-- Big-endian byte serialization of `x` into `n` bytes. -/
def toBytesBE : Nat → Nat → List Nat
  | 0, _ => []
  | n + 1, x => toBytesBE n (x / 256) ++ [x % 256]

/-- SHA-256 message padding: a `0x80` byte, zeros up to 56 mod 64, then
the bit length as an 8-byte big-endian integer. -/
def padMessage (msg : List Nat) : List Nat :=
  msg ++ [128] ++ List.replicate ((119 - msg.length % 64) % 64) 0
    ++ toBytesBE 8 (8 * msg.length)

/-- Split a byte list into chunks of 64 (the first argument is fuel). -/
def chunk64 : Nat → List Nat → List (List Nat)
  | 0, _ => []
  | _ + 1, [] => []
  | fuel + 1, l => l.take 64 :: chunk64 fuel (l.drop 64)

/-- Group bytes into big-endian 32-bit words. -/
def bytesToWords : List Nat → List Nat
  | b0 :: b1 :: b2 :: b3 :: rest =>
    (b0 * 16777216 + b1 * 65536 + b2 * 256 + b3) :: bytesToWords rest
  | _ => []

/-- Extend the 16 message-schedule words to 64 (48 extension steps). -/
def extendSchedule : Nat → List Nat → List Nat
  | 0, ws => ws
  | fuel + 1, ws =>
    let t := ws.length
    let nw := w32 (smallSigma1 (ws.getD (t - 2) 0) + ws.getD (t - 7) 0 +
      smallSigma0 (ws.getD (t - 15) 0) + ws.getD (t - 16) 0)
    extendSchedule fuel (ws ++ [nw])

/-- The 64 compression rounds, consuming `(round constant, schedule word)`
pairs. -/
def compressRounds : List (Nat × Nat) → Hash8 → Hash8
  | [], st => st
  | (k, w) :: rest, st =>
    let t1 := w32 (st.h + bigSigma1 st.e + ch st.e st.f st.g + k + w)
    let t2 := w32 (bigSigma0 st.a + maj st.a st.b st.c)
    compressRounds rest ⟨w32 (t1 + t2), st.a, st.b, st.c, w32 (st.d + t1), st.e, st.f, st.g⟩

/-- Add two hash states componentwise modulo `2^32`. -/
def addHash8 (x y : Hash8) : Hash8 :=
  ⟨w32 (x.a + y.a), w32 (x.b + y.b), w32 (x.c + y.c), w32 (x.d + y.d),
   w32 (x.e + y.e), w32 (x.f + y.f), w32 (x.g + y.g), w32 (x.h + y.h)⟩

/-- Process one 64-byte block. -/
def sha256Block (H : Hash8) (block : List Nat) : Hash8 :=
  addHash8 H (compressRounds (K256.zip (extendSchedule 48 (bytesToWords block))) H)

/-- The SHA-256 digest of a byte message, as a list of 32 bytes. -/
def sha256 (msg : List Nat) : List Nat :=
  let padded := padMessage msg
  let final := (chunk64 padded.length padded).foldl sha256Block sha256H0
  toBytesBE 4 final.a ++ toBytesBE 4 final.b ++ toBytesBE 4 final.c ++ toBytesBE 4 final.d
    ++ toBytesBE 4 final.e ++ toBytesBE 4 final.f ++ toBytesBE 4 final.g ++ toBytesBE 4 final.h

/-- Lowercase hexadecimal digit, as used by `hexdigest()`. -/
def hexDigit (n : Nat) : Char :=
  if n < 10 then Char.ofNat (48 + n) else Char.ofNat (87 + n)

/-- Two lowercase hex characters of one byte. -/
def byteToHex (b : Nat) : List Char := [hexDigit (b / 16), hexDigit (b % 16)]

/-- Embeds `hashlib.sha256(encoded).hexdigest()`: the 64-character
lowercase hex digest. -/
def sha256Hex (msg : List Nat) : List Char := (sha256 msg).flatMap byteToHex

/-! ### URL encoding (`urllib.parse.urlencode` with `quote_plus`), as used
by `_get_execution_key`. -/

/-- UTF-8 encoding of one character, as a list of bytes. -/
def utf8Encode (c : Char) : List Nat :=
  let n := c.toNat
  if n < 128 then [n]
  else if n < 2048 then [192 + n / 64, 128 + n % 64]
  else if n < 65536 then [224 + n / 4096, 128 + (n / 64) % 64, 128 + n % 64]
  else [240 + n / 262144, 128 + (n / 4096) % 64, 128 + (n / 64) % 64, 128 + n % 64]

/-- UTF-8 encoding of a string. -/
def utf8Bytes (s : List Char) : List Nat := s.flatMap utf8Encode

/-- Bytes never percent-quoted by `urllib.parse.quote_plus`: ASCII
letters, digits, and `_`, `.`, `-`, `~`. -/
def alwaysSafeByte (b : Nat) : Bool :=
  (65 ≤ b ∧ b ≤ 90) ∨ (97 ≤ b ∧ b ≤ 122) ∨ (48 ≤ b ∧ b ≤ 57) ∨
    b = 95 ∨ b = 46 ∨ b = 45 ∨ b = 126

/-- Uppercase hex digit as a byte value (for `%XX` escapes). -/
def hexUpperByte (n : Nat) : Nat := if n < 10 then 48 + n else 55 + n

/-- `quote_plus` applied to one byte: safe bytes pass through, a space
becomes `+`, everything else becomes `%XX`. -/
def quoteByte (b : Nat) : List Nat :=
  if alwaysSafeByte b then [b]
  else if b = 32 then [43]
  else [37, hexUpperByte (b / 16), hexUpperByte (b % 16)]

/-- Embeds `urllib.parse.quote_plus` on a string (`safe=''`, as called by
`urlencode`): UTF-8 encode, then quote each byte.  The output is ASCII,
given directly as its byte values. -/
def quote_plus (s : List Char) : List Nat := (utf8Bytes s).flatMap quoteByte

/-- One `key=value` pair of `urlencode` (both sides quoted). -/
def urlencodePair (k v : List Char) : List Nat :=
  quote_plus k ++ 61 :: quote_plus v

/-- Embeds `urllib.parse.urlencode`: `key=value` pairs joined by `&`. -/
def urlencodeParts : List (List Char × List Char) → List Nat
  | [] => []
  | [p] => urlencodePair p.1 p.2
  | p :: rest => urlencodePair p.1 p.2 ++ 38 :: urlencodeParts rest

/-! ### Cache key derivation and storage (src/pallas/caching.py) -/

/-- The ordered `{database?, sql}` key/value pairs hashed by
`_get_execution_key` (database omitted when `None`). -/
def executionKeyParts (database : Option (List Char)) (sql : List Char) :
    List (List Char × List Char) :=
  match database with
  | none => [(['s', 'q', 'l'], sql)]
  | some db => [(['d', 'a', 't', 'a', 'b', 'a', 's', 'e'], db), (['s', 'q', 'l'], sql)]

/-- Embeds `_get_execution_key`: URL-encode the ordered
`{database?, sql}` pairs, hash the UTF-8 bytes with SHA-256, and use
`query-` followed by the hex digest. -/
def _get_execution_key (database : Option (List Char)) (sql : List Char) : List Char :=
  ['q', 'u', 'e', 'r', 'y', '-'] ++ sha256Hex (urlencodeParts (executionKeyParts database sql))

/-- Restatement of the key scheme in the spec's words: the key is
`query-` followed by the SHA-256 hex digest of the URL-encoded
`{database?, sql}` pairs. -/
def specExecutionKey (database : Option (List Char)) (sql : List Char) : List Char :=
  "query-".data ++ sha256Hex (urlencodeParts (executionKeyParts database sql))

/-- Value of an uppercase hexadecimal digit byte (partial inverse of
`hexUpperByte`), used to decode `%XX` escapes. -/
def hexVal (b : Nat) : Option Nat :=
  if 48 ≤ b ∧ b ≤ 57 then some (b - 48)
  else if 65 ≤ b ∧ b ≤ 70 then some (b - 55)
  else none

/-- `quote_plus` decoding state machine: `k` pending hex digits of a
`%XX` escape (0 when not inside an escape), `v` the value of the hex
digits read so far. -/
def unquoteSM : Nat → Nat → List Nat → Option (List Nat)
  | 0, _, [] => some []
  | _+1, _, [] => none
  | 0, _, b :: rest =>
    if b = 37 then unquoteSM 2 0 rest
    else if b = 43 then (unquoteSM 0 0 rest).map (fun l => 32 :: l)
    else if alwaysSafeByte b then (unquoteSM 0 0 rest).map (fun l => b :: l)
    else none
  | 1, v, b :: rest =>
    if (hexVal b).isSome then
      (unquoteSM 0 0 rest).map (fun l => (16 * v + (hexVal b).getD 0) :: l)
    else none
  | k+2, _, b :: rest =>
    if (hexVal b).isSome then unquoteSM (k+1) ((hexVal b).getD 0) rest else none

/-- Decoder of `quote_plus` output (left inverse on encoder outputs):
`%XX` escapes, `+` for space, safe bytes unchanged. -/
def unquoteBytes : List Nat → Option (List Nat) := unquoteSM 0 0

/-- UTF-8 decoding state machine: `k` pending continuation bytes, `v`
the code-point bits accumulated so far.  A leader byte sets `k` and the
high bits of `v`; each continuation byte shifts in six more bits. -/
def utf8DecodeSM : Nat → Nat → List Nat → Option (List Nat)
  | 0, _, [] => some []
  | _+1, _, [] => none
  | 0, _, b :: rest =>
    if b < 128 then (utf8DecodeSM 0 0 rest).map (fun l => b :: l)
    else if b < 224 then utf8DecodeSM 1 (b - 192) rest
    else if b < 240 then utf8DecodeSM 2 (b - 224) rest
    else utf8DecodeSM 3 (b - 240) rest
  | 1, v, b :: rest => (utf8DecodeSM 0 0 rest).map (fun l => (v * 64 + (b - 128)) :: l)
  | k+2, v, b :: rest => utf8DecodeSM (k+1) (v * 64 + (b - 128)) rest

/-- UTF-8 decoder producing code points: run the state machine from the
initial state (no pending continuation bytes). -/
def utf8DecodeBytes : List Nat → Option (List Nat) := utf8DecodeSM 0 0

/-- Embeds `_get_results_key`: `results-` followed by the execution id. -/
def _get_results_key (execution_id : List Char) : List Char :=
  ['r', 'e', 's', 'u', 'l', 't', 's', '-'] ++ execution_id

/-- Embeds the `Storage` interface as instantiated by `MemoryStorage`
(a mutable mapping from string keys to string values; `get` raises
`NotFoundError` on a missing key, modelled as `none`). -/
structure Storage where
  entries : List (List Char × List Char)
deriving DecidableEq, Repr

/-- Lookup of a key (`Storage.get`; `none` models `NotFoundError`). -/
def Storage.get (s : Storage) (k : List Char) : Option (List Char) :=
  (s.entries.find? (fun e => e.1 = k)).map (fun e => e.2)

/-- Store a value under a key (`Storage.set`), replacing any previous
binding. -/
def Storage.set (s : Storage) (k : List Char) (v : List Char) : Storage :=
  ⟨(k, v) :: s.entries.filter (fun e => ¬ e.1 = k)⟩

/-- Key-presence test (`Storage.has`). -/
def Storage.has (s : Storage) (k : List Char) : Bool :=
  (s.entries.find? (fun e => e.1 = k)).isSome

/-- Embeds the mutable state of `AthenaCache`: the two optional storage
tiers and the `enabled` / `read` / `write` toggles. -/
structure AthenaCache where
  local_storage : Option Storage
  remote_storage : Option Storage
  enabled : Bool
  read : Bool
  write : Bool
deriving DecidableEq, Repr

/-- The cache configuration built by `AthenaCache()` (as in
`Athena.__init__`): no storages, all toggles on. -/
def defaultCache : AthenaCache := ⟨none, none, true, true, true⟩

/-- Embeds the module function `_load_execution_id`: `None` storage gives
`None`; otherwise look up the execution key. -/
def _load_execution_id (storage : Option Storage) (database : Option (List Char))
    (sql : List Char) : Option (List Char) :=
  match storage with
  | none => none
  | some st => st.get (_get_execution_key database sql)

/-- Embeds the module function `_save_execution_id`, returning the updated
storage (a no-op when the storage is `None`). -/
def _save_execution_id (storage : Option Storage) (database : Option (List Char))
    (sql : List Char) (execution_id : List Char) : Option Storage :=
  match storage with
  | none => none
  | some st => some (st.set (_get_execution_key database sql) execution_id)

/-- Embeds the module function `_has_results`. -/
def _has_results (storage : Option Storage) (execution_id : List Char) : Bool :=
  match storage with
  | none => false
  | some st => st.has (_get_results_key execution_id)

/-- Embeds the module function `_load_results`: a missing storage or key
gives `none`; a present value is deserialized (deserialization errors
propagate). -/
def _load_results (storage : Option Storage) (execution_id : List Char) :
    Except CsvError (Option QueryResults) :=
  match storage with
  | none => .ok none
  | some st =>
    match st.get (_get_results_key execution_id) with
    | none => .ok none
    | some raw => (QueryResults.load raw).map some

/-- Embeds the module function `_save_results`, returning the updated
storage holding the serialized results. -/
def _save_results (storage : Option Storage) (execution_id : List Char)
    (results : QueryResults) : Option Storage :=
  match storage with
  | none => none
  | some st => some (st.set (_get_results_key execution_id) results.save)

/-- Embeds `AthenaCache.load_execution_id`: gated on `enabled && read`;
local first; on a remote-only hit the value is promoted into the local
storage.  Returns the result and the (possibly mutated) cache. -/
def AthenaCache.load_execution_id (c : AthenaCache) (database : Option (List Char))
    (sql : List Char) : Option (List Char) × AthenaCache :=
  if !(c.enabled && c.read) then (none, c)
  else match _load_execution_id c.local_storage database sql with
  | some execution_id => (some execution_id, c)
  | none =>
    match _load_execution_id c.remote_storage database sql with
    | some execution_id =>
      (some execution_id,
        { c with local_storage := _save_execution_id c.local_storage database sql execution_id })
    | none => (none, c)

/-- Embeds `AthenaCache.save_execution_id`: gated on `enabled && write`;
writes remote first, then local. -/
def AthenaCache.save_execution_id (c : AthenaCache) (database : Option (List Char))
    (sql : List Char) (execution_id : List Char) : AthenaCache :=
  if !(c.enabled && c.write) then c
  else
    { c with
      remote_storage := _save_execution_id c.remote_storage database sql execution_id,
      local_storage := _save_execution_id c.local_storage database sql execution_id }

/-- Embeds `AthenaCache.has_results`: gated on `enabled && read`, local
storage only. -/
def AthenaCache.has_results (c : AthenaCache) (execution_id : List Char) : Bool :=
  if !(c.enabled && c.read) then false
  else _has_results c.local_storage execution_id

/-- Embeds `AthenaCache.load_results`: gated on `enabled && read`, local
storage only. -/
def AthenaCache.load_results (c : AthenaCache) (execution_id : List Char) :
    Except CsvError (Option QueryResults) :=
  if !(c.enabled && c.read) then .ok none
  else _load_results c.local_storage execution_id

/-- Embeds `AthenaCache.save_results`: gated on `enabled && write`, local
storage only. -/
def AthenaCache.save_results (c : AthenaCache) (execution_id : List Char)
    (results : QueryResults) : AthenaCache :=
  if !(c.enabled && c.write) then c
  else { c with local_storage := _save_results c.local_storage execution_id results }

/-! ### SELECT classification (src/pallas/sql.py)

`is_select` matches the regex
`(\s+|--[^\n]*\n|/\*([^*]|\*(?!/))*\*/)*(SELECT|WITH)\b` (IGNORECASE) at
the start of the statement.  The greedy scan below is equivalent to the
backtracking regex because no alternative of the junk group can start
where `SELECT`/`WITH` matches.  `\s` and `\b` are modelled over ASCII
(the character classes Athena SQL uses). -/

/-- ASCII whitespace, modelling the regex class `\s`. -/
def isSpaceChar (c : Char) : Bool :=
  c = ' ' ∨ c = '\t' ∨ c = '\n' ∨ c = '\x0d' ∨ c = '\x0b' ∨ c = '\x0c'

/-- ASCII word character, modelling the regex class `\w` for the boundary
`\b`. -/
def isWordChar (c : Char) : Bool := c.isAlphanum || c = '_'

/-- Scan past a block comment body opened by `/*`; `none` when no closing
`*/` exists (the comment alternative then fails to match). -/
def skipBlockComment : List Char → Option (List Char)
  | [] => none
  | '*' :: '/' :: rest => some rest
  | _ :: rest => skipBlockComment rest

/-- Scan past a line comment body opened by `--`; the alternative requires
a terminating newline. -/
def skipLineComment : List Char → Option (List Char)
  | [] => none
  | '\n' :: rest => some rest
  | _ :: rest => skipLineComment rest

/-- The starred whitespace/comment group before the keyword (fuelled by
the input length; every iteration consumes at least one character). -/
def skipJunk : Nat → List Char → List Char
  | 0, l => l
  | fuel + 1, l =>
    match l with
    | [] => []
    | c :: rest =>
      if isSpaceChar c then skipJunk fuel rest
      else if c = '-' then
        match rest with
        | '-' :: r2 =>
          match skipLineComment r2 with
          | some r3 => skipJunk fuel r3
          | none => l
        | _ => l
      else if c = '/' then
        match rest with
        | '*' :: r2 =>
          match skipBlockComment r2 with
          | some r3 => skipJunk fuel r3
          | none => l
        | _ => l
      else l

/-- Case-insensitive (ASCII) literal match; returns the rest on success. -/
def matchCI : List Char → List Char → Option (List Char)
  | [], l => some l
  | _ :: _, [] => none
  | p :: ps, c :: cs => if c.toLower = p then matchCI ps cs else none

/-- Word boundary after the keyword: end of input or a non-word char. -/
def atBoundary : List Char → Bool
  | [] => true
  | c :: _ => !(isWordChar c)

/-- Embeds `is_select`: whether the statement, after leading whitespace
and SQL comments, starts with `SELECT` or `WITH` (case-insensitive, with
a word boundary). -/
def is_select (sql : List Char) : Bool :=
  let rest := skipJunk (sql.length + 1) sql
  match matchCI ['s', 'e', 'l', 'e', 'c', 't'] rest with
  | some r => atBoundary r
  | none =>
    match matchCI ['w', 'i', 't', 'h'] rest with
    | some r => atBoundary r
    | none => false

/-! ### Query state machine (src/pallas/client.py, src/pallas/info.py)

The external engine and the interruption source are modelled as an
oracle `ProxyEnv`: `stateAt n` is the lifecycle state reported by the
`n`-th `get_query_execution` call, `results` the payload returned by
`get_query_results`, and `interrupted k` whether the `k`-th backoff sleep
raises `KeyboardInterrupt`.  The mutable world (`World`) counts the AWS
calls made and holds the cache. -/

/-- Embeds the `QueryInfo` fields the client reads: lifecycle state,
optional state-change reason, and the executed SQL. -/
structure QueryInfo where
  state : String
  state_reason : Option String
  sql : List Char
deriving DecidableEq, Repr

/-- Embeds `QueryInfo.finished`: the state is terminal. -/
def QueryInfo.finished (i : QueryInfo) : Bool :=
  i.state = "SUCCEEDED" || i.state = "FAILED" || i.state = "CANCELLED"

/-- Embeds `QueryInfo.succeeded`. -/
def QueryInfo.succeeded (i : QueryInfo) : Bool := i.state = "SUCCEEDED"

/-- Embeds `QueryInfo.check`: `some (state, reason)` models raising
`AthenaQueryError(state, state_reason)`. -/
def QueryInfo.check (i : QueryInfo) : Option (String × Option String) :=
  if i.finished && !i.succeeded then some (i.state, i.state_reason) else none

/-- Oracle for the external engine and the interruption source. -/
structure ProxyEnv where
  stateAt : Nat → String
  reasonAt : Nat → Option String
  sql : List Char
  results : QueryResults
  interrupted : Nat → Bool

/-- Response of the `n`-th `get_query_execution` call. -/
def ProxyEnv.infoAt (env : ProxyEnv) (n : Nat) : QueryInfo :=
  ⟨env.stateAt n, env.reasonAt n, env.sql⟩

/-- Mutable world: the cache plus counters of external effects. -/
structure World where
  cache : AthenaCache
  pollCount : Nat
  fetchCount : Nat
  cancelCount : Nat
  sleepCount : Nat
deriving DecidableEq, Repr

/-- Embeds the mutable state of a `Query` instance: the execution id, the
memoized `_info` snapshot, and the `kill_on_interrupt` flag. -/
structure Query where
  execution_id : List Char
  _info : Option QueryInfo
  kill_on_interrupt : Bool
deriving DecidableEq, Repr

/-- Embeds `Query.get_info`: return the memoized snapshot if present;
otherwise poll once and memoize the snapshot only when it is terminal. -/
def Query.get_info (env : ProxyEnv) (q : Query) (w : World) : QueryInfo × Query × World :=
  match q._info with
  | some info => (info, q, w)
  | none =>
    let info := env.infoAt w.pollCount
    let w1 := { w with pollCount := w.pollCount + 1 }
    if info.finished then (info, { q with _info := some info }, w1)
    else (info, q, w1)

/-- Embeds `Query.kill`: one `stop_query_execution` call. -/
def Query.kill (w : World) : World :=
  { w with cancelCount := w.cancelCount + 1 }

/-- Result of `Query.join`: normal return, a raised `AthenaQueryError`, a
propagated `KeyboardInterrupt`, or exhausted fuel (the source loops
forever on a never-terminating query). -/
inductive JoinOutcome where
  | ok
  | queryError (state : String) (state_reason : Option String)
  | interrupted
  | outOfFuel
deriving DecidableEq, Repr

/-- Embeds `Query.join`.  `checkCache` is true at the entry of each
`join()` call (the `has_results` short-circuit), false when the `for`
loop continues.  An interrupted sleep with `kill_on_interrupt` set clears
the flag, issues one cancel, recursively joins, and on normal return of
the recursive join re-enters the loop; with the flag clear the
interruption propagates. -/
def Query.joinAux (env : ProxyEnv) : Nat → Bool → Query → World →
    Query × World × JoinOutcome
  | 0, _, q, w => (q, w, .outOfFuel)
  | fuel + 1, checkCache, q, w =>
    if checkCache && w.cache.has_results q.execution_id then (q, w, .ok)
    else
      match Query.get_info env q w with
      | (info, q1, w1) =>
        if info.finished then
          match info.check with
          | some (st, reason) => (q1, w1, .queryError st reason)
          | none => (q1, w1, .ok)
        else
          let k := w1.sleepCount
          let w2 := { w1 with sleepCount := k + 1 }
          if env.interrupted k then
            if !q1.kill_on_interrupt then (q1, w2, .interrupted)
            else
              let q2 := { q1 with kill_on_interrupt := false }
              let w3 := Query.kill w2
              match Query.joinAux env fuel true q2 w3 with
              | (q3, w4, .ok) => Query.joinAux env fuel false q3 w4
              | r => r
          else Query.joinAux env fuel false q1 w2

/-- Embeds a `Query.join()` call. -/
def Query.join (env : ProxyEnv) (fuel : Nat) (q : Query) (w : World) :
    Query × World × JoinOutcome :=
  Query.joinAux env fuel true q w

/-- Result of `Query.get_results`. -/
inductive FetchOutcome where
  | ok (results : QueryResults)
  | queryError (state : String) (state_reason : Option String)
  | interrupted
  | formatError (e : CsvError)
  | outOfFuel
deriving DecidableEq, Repr

/-- Embeds the tail of `Query.get_results` after `join()` returned
normally: read the info, fetch the results from the engine, and cache
them only when the statement is a SELECT. -/
def Query.fetch_and_cache (env : ProxyEnv) (q1 : Query) (w1 : World) :
    Query × World × FetchOutcome :=
  match Query.get_info env q1 w1 with
  | (info, q2, w2) =>
    let results := env.results
    let w3 := { w2 with fetchCount := w2.fetchCount + 1 }
    let w4 := if is_select info.sql
      then { w3 with cache := w3.cache.save_results q2.execution_id results }
      else w3
    (q2, w4, .ok results)

/-- Embeds `Query.get_results`: serve from the cache when possible;
otherwise `join()` and run the fetch-and-cache tail; errors raised by
`join()` propagate. -/
def Query.get_results (env : ProxyEnv) (fuel : Nat) (q : Query) (w : World) :
    Query × World × FetchOutcome :=
  match w.cache.load_results q.execution_id with
  | .error e => (q, w, .formatError e)
  | .ok (some results) => (q, w, .ok results)
  | .ok none =>
    match Query.join env fuel q w with
    | (q1, w1, .ok) => Query.fetch_and_cache env q1 w1
    | (q1, w1, .queryError st reason) => (q1, w1, .queryError st reason)
    | (q1, w1, .interrupted) => (q1, w1, .interrupted)
    | (q1, w1, .outOfFuel) => (q1, w1, .outOfFuel)

/-! ### Concrete scenario data -/

/-- The SQL text `SELECT 1`. -/
def selectOneSql : List Char := ['S', 'E', 'L', 'E', 'C', 'T', ' ', '1']

/-- Environment of a query that succeeds on the first poll. -/
def succeedEnv : ProxyEnv :=
  ⟨fun _ => "SUCCEEDED", fun _ => none, selectOneSql, sampleResults, fun _ => false⟩

/-- Environment for cancellation scenario D: the first poll reports
RUNNING, later polls report CANCELLED, and only the first sleep is
interrupted. -/
def scenarioDEnv : ProxyEnv :=
  ⟨fun n => if n = 0 then "RUNNING" else "CANCELLED", fun _ => none, selectOneSql,
    sampleResults, fun k => k = 0⟩

/-- Environment for the repeated-signal scenario: every poll reports
RUNNING and every sleep is interrupted. -/
def doubleInterruptEnv : ProxyEnv :=
  ⟨fun _ => "RUNNING", fun _ => none, selectOneSql, sampleResults, fun _ => true⟩

/-- A fresh query instance on the default cache-less world. -/
def sampleQuery : Query := ⟨['x'], none, true⟩

/-- World whose cache has an empty local storage and all toggles on. -/
def c2World : World := ⟨⟨some ⟨[]⟩, none, true, true, true⟩, 0, 0, 0, 0⟩

/-- Result of the first `get_results` call in the C2 witness. -/
def c2First : Query × World × FetchOutcome :=
  Query.get_results succeedEnv 5 sampleQuery c2World

/-- Execution key used in the promotion witnesses. -/
def c6Key : List Char := _get_execution_key (some ['d']) selectOneSql

/-- Cache with an empty local store and the key in the remote store. -/
def c6Cache : AthenaCache := ⟨some ⟨[]⟩, some ⟨[(c6Key, ['i', 'd'])]⟩, true, true, true⟩

/-- Execution key used in the write-toggle witness (no database). -/
def c9Key : List Char := _get_execution_key none selectOneSql

/-- Cache with `write = false`, an empty local store and a remote hit. -/
def c9Cache : AthenaCache := ⟨some ⟨[]⟩, some ⟨[(c9Key, ['i'])]⟩, true, true, false⟩

/-- World with the default (storage-less) cache and zeroed counters. -/
def sampleWorld : World := ⟨defaultCache, 0, 0, 0, 0⟩

/-! ### Tokenizer lemmas -/

theorem except_map_ok {ε α β : Type} (f : α → β) (x : α) :
    (Except.ok x : Except ε α).map f = .ok (f x) := rfl

theorem except_map_error {ε α β : Type} (f : α → β) (e : ε) :
    (Except.error e : Except ε α).map f = .error e := rfl

theorem except_bind_ok {ε α β : Type} (x : α) (f : α → Except ε β) :
    (Except.ok x : Except ε α) >>= f = f x := rfl

theorem except_bind_error {ε α β : Type} (e : ε) (f : α → Except ε β) :
    (Except.error e : Except ε α) >>= f = .error e := rfl

theorem except_isOk_error {ε α : Type} (e : ε) :
    (Except.error e : Except ε α).isOk = false := rfl

theorem tokenizeAux_quoted (v : List Char) (acc l : List Char) :
    tokenizeAux (encodeQuotes v ++ l) acc true =
      tokenizeAux l (acc ++ encodeQuotes v) true := by
  induction v generalizing acc with
  | nil => simp [encodeQuotes]
  | cons c rest ih =>
    by_cases hc : c = '"'
    · subst hc
      simp [encodeQuotes, tokenizeAux, ih, List.append_assoc]
    · simp [encodeQuotes, tokenizeAux, hc, ih, List.append_assoc]

theorem tokenizeAux_encode (cell : CSVValue) (acc l : List Char) :
    tokenizeAux (_encode_value cell ++ l) acc false =
      tokenizeAux l (acc ++ _encode_value cell) false := by
  cases cell with
  | none => simp [_encode_value]
  | some v =>
    simp [_encode_value, tokenizeAux, List.append_assoc, tokenizeAux_quoted]

theorem tokenizeAux_plain (v : List Char) (hv : v.all plainChar) (acc l : List Char) :
    tokenizeAux (v ++ l) acc false =
      tokenizeAux l (acc ++ v) false := by
  induction v generalizing acc with
  | nil => simp
  | cons c rest ih =>
    simp only [List.all_cons, Bool.and_eq_true] at hv
    have hc : ¬(c = '"' ∨ c = ',' ∨ c = '\n') := by
      simpa [plainChar] using hv.1
    push_neg at hc
    simp [tokenizeAux, hc.1, hc.2.1, hc.2.2, ih hv.2, List.append_assoc]

theorem tokenizeAux_row (row : CSVRow) (l : List Char) :
    tokenizeAux (writeRow row ++ '\n' :: l) [] false =
      (tokenizeAux l [] false).map (fun ts => rowTokens row ++ ts) := by
  induction row with
  | nil =>
    simp [writeRow, tokenizeAux, rowTokens]
  | cons cell rest ih =>
    cases rest with
    | nil =>
      rw [show writeRow [cell] = _encode_value cell from rfl]
      rw [tokenizeAux_encode]
      simp [tokenizeAux, rowTokens]
    | cons c2 r2 =>
      rw [show writeRow (cell :: c2 :: r2) =
            _encode_value cell ++ ',' :: writeRow (c2 :: r2) from rfl]
      rw [List.append_assoc, List.cons_append, tokenizeAux_encode]
      simp only [List.nil_append]
      rw [show rowTokens (cell :: c2 :: r2) =
            (_encode_value cell, some .comma) :: rowTokens (c2 :: r2) from rfl]
      rw [show tokenizeAux (',' :: (writeRow (c2 :: r2) ++ '\n' :: l))
            (_encode_value cell) false =
          (tokenizeAux (writeRow (c2 :: r2) ++ '\n' :: l) [] false).map
            (fun ts => (_encode_value cell, some .comma) :: ts) from by
        simp [tokenizeAux]]
      rw [ih]
      cases tokenizeAux l [] false <;> simp [Except.map]

theorem tokenize_write_csv (rows : List CSVRow) (l : List Char) :
    tokenizeAux (write_csv rows ++ l) [] false =
      (tokenizeAux l [] false).map (fun ts => rows.flatMap rowTokens ++ ts) := by
  induction rows with
  | nil =>
    simp only [write_csv, List.map_nil, List.flatten_nil, List.nil_append,
      List.flatMap_nil]
    cases tokenizeAux l [] false <;> simp [Except.map]
  | cons row rest ih =>
    rw [show write_csv (row :: rest) = (writeRow row ++ ['\n']) ++ write_csv rest from by
      simp [write_csv]]
    rw [List.append_assoc, List.append_assoc, List.singleton_append, tokenizeAux_row,
      ih]
    cases tokenizeAux l [] false <;> simp [Except.map, List.append_assoc]

/-! ### Decoder lemmas -/

theorem splitQ_ne_nil (v : List Char) : splitQ v ≠ [] := by
  cases v with
  | nil => simp [splitQ]
  | cons c rest =>
    by_cases hc : c = '"'
    · simp [splitQ, hc]
    · simp only [splitQ, if_neg hc]
      cases splitQ rest <;> simp

theorem splitDQ_cons (c : Char) (hc : c ≠ '"') (l : List Char) :
    splitDQ (c :: l) = match splitDQ l with
      | [] => [[c]]
      | p :: ps => (c :: p) :: ps := by
  cases l with
  | nil => rfl
  | cons c2 rest =>
    rw [splitDQ, if_neg (by simp [hc])]

theorem splitDQ_encodeQuotes (v : List Char) :
    splitDQ (encodeQuotes v) = splitQ v := by
  induction v with
  | nil => rfl
  | cons c rest ih =>
    by_cases hc : c = '"'
    · subst hc
      rw [show encodeQuotes ('"' :: rest) = '"' :: '"' :: encodeQuotes rest from by
        simp [encodeQuotes]]
      rw [splitDQ, if_pos ⟨rfl, rfl⟩, ih]
      simp [splitQ]
    · rw [show encodeQuotes (c :: rest) = c :: encodeQuotes rest from by
        simp [encodeQuotes, hc]]
      rw [splitDQ_cons c hc, ih]
      simp only [splitQ, if_neg hc]

theorem splitQ_no_quote (v : List Char) :
    (splitQ v).any (fun p => p.any (fun c => c = '"')) = false := by
  induction v with
  | nil => rfl
  | cons c rest ih =>
    by_cases hc : c = '"'
    · simp only [splitQ, if_pos hc, List.any_cons, ih]
      simp
    · simp only [splitQ, if_neg hc]
      rcases h : splitQ rest with _ | ⟨p, ps⟩
      · exact absurd h (splitQ_ne_nil rest)
      · rw [h] at ih
        simp only [List.any_cons, Bool.or_eq_false_iff] at ih ⊢
        exact ⟨by simp [hc, ih.1], ih.2⟩

theorem joinQuote_splitQ (v : List Char) : joinQuote (splitQ v) = v := by
  induction v with
  | nil => rfl
  | cons c rest ih =>
    by_cases hc : c = '"'
    · subst hc
      rw [show splitQ ('"' :: rest) = [] :: splitQ rest from by rw [splitQ, if_pos rfl]]
      rcases h : splitQ rest with _ | ⟨p, ps⟩
      · exact absurd h (splitQ_ne_nil rest)
      · rw [h] at ih
        rw [show joinQuote ([] :: p :: ps) = [] ++ '"' :: joinQuote (p :: ps) from rfl]
        simp [ih]
    · simp only [splitQ, if_neg hc]
      rcases h : splitQ rest with _ | ⟨p, ps⟩
      · exact absurd h (splitQ_ne_nil rest)
      · rw [h] at ih
        cases ps with
        | nil => simpa [joinQuote] using ih
        | cons q qs =>
          rw [show joinQuote ((c :: p) :: q :: qs) = (c :: p) ++ '"' :: joinQuote (q :: qs)
            from rfl]
          rw [show joinQuote (p :: q :: qs) = p ++ '"' :: joinQuote (q :: qs) from rfl] at ih
          simpa using ih

theorem decode_encode (cell : CSVValue) :
    _decode_value (_encode_value cell) = .ok cell := by
  cases cell with
  | none => rfl
  | some v =>
    have hlast : (('"' :: (encodeQuotes v ++ ['"'])) : List Char).getLast? = some '"' := by
      rw [← List.cons_append]
      exact List.getLast?_concat _
    rw [show _encode_value (some v) = '"' :: (encodeQuotes v ++ ['"']) from rfl]
    rw [_decode_value]
    rw [if_neg (by simp), if_pos ⟨rfl, hlast⟩]
    simp only [List.drop_succ_cons, List.drop_zero, List.dropLast_concat]
    rw [splitDQ_encodeQuotes, if_neg (by simp [splitQ_no_quote]), joinQuote_splitQ]

/-! ### Reader lemmas and the round-trip law -/

theorem readRows_rowTokens (row : CSVRow) (h : row ≠ []) (ts : List (List Char × Option Control))
    (acc : CSVRow) :
    readRows (rowTokens row ++ ts) acc =
      (readRows ts []).map (fun rest => (acc ++ row) :: rest) := by
  induction row generalizing acc with
  | nil => exact absurd rfl h
  | cons cell rest ih =>
    cases rest with
    | nil =>
      rw [show rowTokens [cell] = [(_encode_value cell, some .newline)] from rfl]
      simp only [List.cons_append, List.nil_append]
      rw [readRows]
      simp only [decode_encode]
      cases readRows ts [] <;> rfl
    | cons c2 r2 =>
      rw [show rowTokens (cell :: c2 :: r2) =
            (_encode_value cell, some .comma) :: rowTokens (c2 :: r2) from rfl]
      simp only [List.cons_append]
      rw [readRows]
      simp only [decode_encode]
      rw [show ((Except.ok cell : Except CsvError CSVValue) >>= fun d =>
            readRows (rowTokens (c2 :: r2) ++ ts) (acc ++ [d])) =
          readRows (rowTokens (c2 :: r2) ++ ts) (acc ++ [cell]) from rfl]
      rw [ih (by simp)]
      cases readRows ts [] <;> simp [Except.map, List.append_assoc]

theorem readRows_flat_tail (rows : List CSVRow) (h : [] ∉ rows)
    (ts : List (List Char × Option Control)) :
    readRows (rows.flatMap rowTokens ++ ts) [] =
      (readRows ts []).map (fun rest => rows ++ rest) := by
  induction rows with
  | nil =>
    simp only [List.flatMap_nil, List.nil_append]
    cases readRows ts [] <;> simp [Except.map]
  | cons row rest ih =>
    simp only [List.mem_cons, not_or] at h
    rw [List.flatMap_cons, List.append_assoc]
    rw [readRows_rowTokens row (fun hrow => h.1 hrow.symm) _ []]
    rw [ih h.2]
    cases readRows ts [] <;> simp [Except.map]

theorem read_csv_write_csv (rows : List CSVRow) (h : [] ∉ rows) :
    read_csv (write_csv rows) = .ok rows := by
  rw [read_csv, tokenize]
  rw [show write_csv rows = write_csv rows ++ [] from by simp]
  rw [tokenize_write_csv]
  rw [show tokenizeAux [] [] false = .ok [([], none)] from rfl]
  rw [show (Except.ok [([], none)] : Except CsvError (List (List Char × Option Control))).map
        (fun ts => rows.flatMap rowTokens ++ ts) =
      .ok (rows.flatMap rowTokens ++ [([], none)]) from rfl]
  rw [show ((Except.ok (rows.flatMap rowTokens ++ [([], none)]) :
        Except CsvError (List (List Char × Option Control))) >>= fun ts => readRows ts []) =
      readRows (rows.flatMap rowTokens ++ [(([] : List Char), (none : Option Control))]) []
      from rfl]
  rw [readRows_flat_tail rows h]
  simp [readRows, Except.map]

/-- C1: serializing a `QueryResults` and deserializing the stream yields
the original back, for every `QueryResults` whose column-name list,
column-type list, and every data row are non-empty; this covers rows with
null cells, empty-string cells, and cells with embedded quote, comma and
newline characters.  (The non-emptiness restrictions are forced by
`C1_roundtrip_counterexample`: a zero-cell row round-trips to one null
cell.) -/
theorem C1_results_roundtrip (r : QueryResults) (h1 : r.column_names ≠ [])
    (h2 : r.column_types ≠ []) (h3 : [] ∉ r.data) :
    QueryResults.load (QueryResults.save r) = .ok r := by
  have hrows : ([] : CSVRow) ∉
      ([r.column_names.map some, r.column_types.map some] ++ r.data) := by
    intro hmem
    rcases List.mem_append.1 hmem with hin | hin
    · rcases List.mem_cons.1 hin with he | hin2
      · exact h1 (by simpa using he.symm)
      · rcases List.mem_cons.1 hin2 with he | hin3
        · exact h2 (by simpa using he.symm)
        · simp at hin3
    · exact h3 hin
  rw [QueryResults.save]
  rw [show write_csv [r.column_names.map some, r.column_types.map some] ++ write_csv r.data
        = write_csv ([r.column_names.map some, r.column_types.map some] ++ r.data) from by
    simp [write_csv]]
  rw [QueryResults.load]
  rw [read_csv_write_csv _ hrows]
  rw [show ([r.column_names.map some, r.column_types.map some] ++ r.data : List CSVRow)
        = r.column_names.map some :: r.column_types.map some :: r.data from rfl]
  show (if (r.column_names.map some).any (fun v => v = none) then _
    else if (r.column_types.map some).any (fun v => v = none) then _ else _) = _
  rw [if_neg (by simp), if_neg (by simp)]
  simp [List.map_map, Function.comp_def]

/-- Witness for C1: the sample results with a null cell, an empty-string
cell and a quote/comma/newline cell round-trip exactly. -/
theorem C1_results_roundtrip_witness :
    sampleResults.column_names ≠ [] ∧ sampleResults.column_types ≠ [] ∧
      [] ∉ sampleResults.data ∧
      QueryResults.load (QueryResults.save sampleResults) = .ok sampleResults :=
  ⟨by decide, by decide, by decide,
    C1_results_roundtrip sampleResults (by decide) (by decide) (by decide)⟩

/-- Counterexample to C1 as stated: a `QueryResults` with a zero-cell data
row does not round-trip — the row is serialized as a bare newline, which
deserializes as a row with one null cell. -/
theorem C1_roundtrip_counterexample :
    QueryResults.load (QueryResults.save ⟨[['n']], [['t']], [[]]⟩) ≠
      .ok ⟨[['n']], [['t']], [[]]⟩ := by decide

/-! ### Error conditions of the CSV reader -/

theorem tokenizeAux_unterminated (l : List Char) :
    ∀ (acc : List Char) (q : Bool),
      (l.count '"' + (if q then 1 else 0)) % 2 = 1 →
      tokenizeAux l acc q = .error .unterminatedQuote := by
  induction l with
  | nil =>
    intro acc q hq
    cases q with
    | false => simp at hq
    | true => rfl
  | cons c rest ih =>
    intro acc q hq
    by_cases hc : c = '"'
    · subst hc
      have hq' : (rest.count '"' + (if !q then 1 else 0)) % 2 = 1 := by
        simp only [List.count_cons, beq_self_eq_true, if_pos rfl] at hq
        cases q with
        | false => simpa using hq
        | true =>
          have h2 : (rest.count '"' + 1 + 1) % 2 = 1 := by simpa using hq
          have h3 : rest.count '"' % 2 = 1 := by omega
          simpa using h3
      rw [tokenizeAux, if_pos rfl]
      exact ih _ _ hq'
    · have hq' : (rest.count '"' + (if q then 1 else 0)) % 2 = 1 := by
        simpa [List.count_cons, hc] using hq
      rw [tokenizeAux, if_neg hc]
      cases q with
      | true =>
        rw [if_pos rfl]
        exact ih _ _ hq'
      | false =>
        rw [if_neg (by simp)]
        by_cases hcc : c = ','
        · rw [if_pos hcc, ih _ _ hq']
          rfl
        · rw [if_neg hcc]
          by_cases hcn : c = '\n'
          · rw [if_pos hcn, ih _ _ hq']
            rfl
          · rw [if_neg hcn]
            exact ih _ _ hq'

theorem decode_plain (v : List Char) (hne : v ≠ []) (hv : v.all plainChar) :
    _decode_value v = .error (.valueNotQuoted v) := by
  rcases v with _ | ⟨c, r⟩
  · exact absurd rfl hne
  · have hc : ¬(c = '"' ∨ c = ',' ∨ c = '\n') := by
      simp only [List.all_cons, Bool.and_eq_true] at hv
      simpa [plainChar] using hv.1
    rw [_decode_value, if_neg (by simp)]
    rw [if_neg (fun h => hc (Or.inl (by simpa using h.1)))]

theorem tokenizeAux_writeRow (p : CSVRow) :
    tokenizeAux (writeRow p) [] false = .ok (partialRowTokens p) := by
  induction p with
  | nil => rfl
  | cons cell rest ih =>
    cases rest with
    | nil =>
      rw [show writeRow [cell] = _encode_value cell ++ [] from by simp [writeRow]]
      rw [tokenizeAux_encode]
      rfl
    | cons c2 r2 =>
      rw [show writeRow (cell :: c2 :: r2) =
            _encode_value cell ++ ',' :: writeRow (c2 :: r2) from rfl]
      rw [tokenizeAux_encode]
      simp only [List.nil_append]
      rw [show tokenizeAux (',' :: writeRow (c2 :: r2)) (_encode_value cell) false =
            (tokenizeAux (writeRow (c2 :: r2)) [] false).map
              (fun ts => (_encode_value cell, some .comma) :: ts) from by
        simp [tokenizeAux]]
      rw [ih]
      rfl

theorem readRows_fragment (p : CSVRow) (hp : p ≠ []) :
    ∀ acc : CSVRow, acc ≠ [] →
      readRows (partialRowTokens p) acc = .error .missingTrailingNewline := by
  induction p with
  | nil => exact absurd rfl hp
  | cons cell rest ih =>
    intro acc hacc
    cases rest with
    | nil =>
      rw [show partialRowTokens [cell] = [(_encode_value cell, none)] from rfl]
      simp [readRows, hacc]
    | cons c2 r2 =>
      rw [show partialRowTokens (cell :: c2 :: r2) =
            (_encode_value cell, some .comma) :: partialRowTokens (c2 :: r2) from rfl]
      rw [readRows]
      simp only [decode_encode]
      rw [show ((Except.ok cell : Except CsvError CSVValue) >>= fun d =>
            readRows (partialRowTokens (c2 :: r2)) (acc ++ [d])) =
          readRows (partialRowTokens (c2 :: r2)) (acc ++ [cell]) from rfl]
      exact ih (by simp) _ (by simp)

/-- C3 (amended): the three format-error conditions of the CSV reader.
An input with an unterminated quoted value (odd number of quote
characters) always fails with a quoting error; a non-empty raw unquoted
token followed by a field or line separator always makes the reader fail;
a stream whose unterminated last row contains at least two fields (one
field separator) fails with a missing-trailing-newline error.  (The
original claim also demanded an error for an unterminated single-field
last row; `C3_missing_newline_counterexample` shows the reader instead
silently drops such a fragment.) -/
theorem C3_csv_format_errors :
    (∀ input : List Char, input.count '"' % 2 = 1 →
        read_csv input = .error .unterminatedQuote) ∧
    (∀ v : List Char, ∀ d : Char, ∀ rest : List Char,
        v ≠ [] → v.all plainChar → (d = ',' ∨ d = '\n') →
        (read_csv (v ++ d :: rest)).isOk = false) ∧
    (∀ rows : List CSVRow, ∀ p : CSVRow, [] ∉ rows → 2 ≤ p.length →
        read_csv (write_csv rows ++ writeRow p) = .error .missingTrailingNewline) := by
  refine ⟨?_, ?_, ?_⟩
  · intro input hq
    rw [read_csv, tokenize, tokenizeAux_unterminated input [] false (by simpa using hq)]
    rfl
  · intro v d rest hne hv hd
    rw [read_csv, tokenize, tokenizeAux_plain v hv]
    simp only [List.nil_append]
    rcases hd with rfl | rfl
    · rw [show tokenizeAux (',' :: rest) v false =
            (tokenizeAux rest [] false).map (fun ts => (v, some .comma) :: ts) from by
        simp [tokenizeAux]]
      cases tokenizeAux rest [] false with
      | error e => rfl
      | ok ts =>
        rw [except_map_ok, except_bind_ok, readRows, decode_plain v hne hv,
          except_bind_error, except_isOk_error]
    · rw [show tokenizeAux ('\n' :: rest) v false =
            (tokenizeAux rest [] false).map (fun ts => (v, some .newline) :: ts) from by
        simp [tokenizeAux]]
      cases tokenizeAux rest [] false with
      | error e => rfl
      | ok ts =>
        rw [except_map_ok, except_bind_ok, readRows, decode_plain v hne hv,
          except_bind_error, except_isOk_error]
  · intro rows p hrows hp
    rw [read_csv, tokenize, tokenize_write_csv, tokenizeAux_writeRow]
    rw [show ((Except.ok (partialRowTokens p) :
          Except CsvError (List (List Char × Option Control))).map
            (fun ts => rows.flatMap rowTokens ++ ts) >>= fun ts => readRows ts []) =
        readRows (rows.flatMap rowTokens ++ partialRowTokens p) [] from rfl]
    rw [readRows_flat_tail rows hrows]
    rcases p with _ | ⟨c1, p'⟩
    · simp at hp
    rcases p' with _ | ⟨c2, p''⟩
    · simp at hp
    rw [show partialRowTokens (c1 :: c2 :: p'') =
          (_encode_value c1, some .comma) :: partialRowTokens (c2 :: p'') from rfl]
    rw [readRows]
    simp only [decode_encode]
    rw [show ((Except.ok c1 : Except CsvError CSVValue) >>= fun d =>
          readRows (partialRowTokens (c2 :: p'')) ([] ++ [d])) =
        readRows (partialRowTokens (c2 :: p'')) [c1] from rfl]
    rw [readRows_fragment (c2 :: p'') (by simp) [c1] (by simp)]
    rfl

/-- Witness for C3: concrete instances of the three error conditions. -/
theorem C3_csv_format_errors_witness :
    (List.count '"' ['"'] % 2 = 1 ∧ read_csv ['"'] = .error .unterminatedQuote) ∧
    ((['a'] : List Char) ≠ [] ∧ List.all ['a'] plainChar = true ∧
      ('\n' = ',' ∨ '\n' = '\n') ∧ (read_csv (['a'] ++ '\n' :: [])).isOk = false) ∧
    ([] ∉ ([[some ['x']]] : List CSVRow) ∧ 2 ≤ ([some ['a'], none] : CSVRow).length ∧
      read_csv (write_csv [[some ['x']]] ++ writeRow [some ['a'], none]) =
        .error .missingTrailingNewline) :=
  ⟨⟨by decide, C3_csv_format_errors.1 ['"'] (by decide)⟩,
    ⟨by decide, by decide, Or.inr rfl,
      C3_csv_format_errors.2.1 ['a'] '\n' [] (by decide) (by decide) (Or.inr rfl)⟩,
    ⟨by decide, by decide,
      C3_csv_format_errors.2.2 [[some ['x']]] [some ['a'], none] (by decide) (by decide)⟩⟩

/-- Counterexample to C3 as stated: the stream `"a"` has no trailing
newline (and is a complete quoted token), yet the reader reports no error
and returns zero rows, silently dropping the fragment. -/
theorem C3_missing_newline_counterexample :
    read_csv ['"', 'a', '"'] = .ok [] := by decide

/-! ### Backoff sequence theorems -/

theorem fib_le_fib_succ (n : Nat) : fib n ≤ fib (n + 1) := by
  cases n with
  | zero => exact Nat.le_refl 1
  | succ k =>
    rw [show fib (k + 2) = fib k + fib (k + 1) from rfl]
    exact Nat.le_add_left _ _

theorem fib_mono (a k : Nat) : fib a ≤ fib (a + k) := by
  induction k with
  | zero => exact Nat.le_refl _
  | succ k ih => exact Nat.le_trans ih (fib_le_fib_succ (a + k))

theorem fibIter_eq_min (m : Nat) :
    ∀ n k : Nat, fibIter m (fib k) (fib (k + 1)) n = min (fib (k + n)) m := by
  intro n
  induction n with
  | zero =>
    intro k
    simp only [Nat.add_zero]
    rw [fibIter]
    split <;> omega
  | succ n ih =>
    intro k
    rw [fibIter]
    split
    · rw [show fib k + fib (k + 1) = fib (k + 2) from rfl]
      rw [ih (k + 1)]
      have : k + 1 + n = k + (n + 1) := by omega
      rw [this]
    · have hmono : fib k ≤ fib (k + (n + 1)) := fib_mono k (n + 1)
      omega

/-- C4: the backoff policy with maximum 60 yields exactly
`1,1,2,3,5,8,13,21,34,55` and then `60` forever; in general, for every
maximum `m ≥ 1`, the `n`-th yielded delay is the `n`-th Fibonacci number
clamped to `m` (so every term is at most `m` and all terms equal `m` once
the cap is reached), and the sequence is monotonically non-decreasing
(it is infinite by construction: `backoffSeq m` is total on `Nat`). -/
theorem C4_backoff_sequence :
    ((List.range 10).map (backoffSeq 60) = [1, 1, 2, 3, 5, 8, 13, 21, 34, 55]) ∧
    (∀ n : Nat, 10 ≤ n → backoffSeq 60 n = 60) ∧
    (∀ m : Nat, 1 ≤ m → ∀ n : Nat,
      backoffSeq m n = min (fib n) m ∧ backoffSeq m n ≤ backoffSeq m (n + 1)) := by
  have hmin : ∀ m n : Nat, backoffSeq m n = min (fib n) m := by
    intro m n
    have h := fibIter_eq_min m n 0
    rw [show fib 0 = 1 from rfl, show fib (0 + 1) = 1 from rfl] at h
    rw [backoffSeq, h, Nat.zero_add]
  refine ⟨by decide, ?_, ?_⟩
  · intro n hn
    rw [hmin 60 n]
    have h10 : fib 10 ≤ fib (10 + (n - 10)) := fib_mono 10 (n - 10)
    rw [show fib 10 = 89 from rfl] at h10
    have : 10 + (n - 10) = n := by omega
    rw [this] at h10
    omega
  · intro m _ n
    refine ⟨hmin m n, ?_⟩
    rw [hmin m n, hmin m (n + 1)]
    have := fib_le_fib_succ n
    omega

/-! ### Tiered cache theorems -/

theorem Storage.get_set_self (st : Storage) (k v : List Char) :
    (st.set k v).get k = some v := by
  rw [Storage.set, Storage.get]
  rw [List.find?_cons_of_pos _ (by simp)]
  rfl

/-- C6: with caching enabled and reading allowed, a local miss and remote
hit on `load_execution_id` returns the remote value, writes it into the
local storage, and afterwards the lookup succeeds from the local tier
alone — the promoted cache returns the value whatever the remote tier
holds, without mutating anything further. -/
theorem C6_promotion (c : AthenaCache) (database : Option (List Char)) (sql : List Char)
    (lst rst : Storage) (xid : List Char)
    (hen : c.enabled = true) (hrd : c.read = true)
    (hloc : c.local_storage = some lst) (hrem : c.remote_storage = some rst)
    (hmiss : lst.get (_get_execution_key database sql) = none)
    (hhit : rst.get (_get_execution_key database sql) = some xid) :
    (c.load_execution_id database sql).1 = some xid ∧
    (c.load_execution_id database sql).2.local_storage =
      some (lst.set (_get_execution_key database sql) xid) ∧
    (∀ r' : Option Storage,
      AthenaCache.load_execution_id
          { (c.load_execution_id database sql).2 with remote_storage := r' } database sql =
        (some xid,
          { (c.load_execution_id database sql).2 with remote_storage := r' })) := by
  have hload : c.load_execution_id database sql =
      (some xid,
        { c with local_storage := some (lst.set (_get_execution_key database sql) xid) }) := by
    rw [AthenaCache.load_execution_id, hen, hrd]
    simp only [Bool.and_self, Bool.not_true, Bool.false_eq_true, if_false]
    rw [show _load_execution_id c.local_storage database sql = none from by
      rw [hloc, _load_execution_id, hmiss]]
    rw [show _load_execution_id c.remote_storage database sql = some xid from by
      rw [hrem, _load_execution_id, hhit]]
    rw [hloc]
    rfl
  refine ⟨by rw [hload], by rw [hload], ?_⟩
  intro r'
  rw [hload]
  rw [AthenaCache.load_execution_id]
  simp only [hen, hrd, Bool.and_self, Bool.not_true, Bool.false_eq_true, if_false]
  rw [show _load_execution_id
        (some (lst.set (_get_execution_key database sql) xid)) database sql =
      some xid from by rw [_load_execution_id, Storage.get_set_self]]

/-- Witness for C6: a concrete promotion from a one-entry remote store
into an empty local store. -/
theorem C6_promotion_witness :
    (c6Cache.load_execution_id (some ['d']) selectOneSql).1 = some ['i', 'd'] ∧
      (c6Cache.load_execution_id (some ['d']) selectOneSql).2.local_storage =
        some (Storage.set ⟨[]⟩ c6Key ['i', 'd']) := by
  have h := C6_promotion c6Cache (some ['d']) selectOneSql ⟨[]⟩
    ⟨[(c6Key, ['i', 'd'])]⟩ ['i', 'd']
    rfl rfl rfl rfl rfl (by rw [Storage.get, List.find?_cons_of_pos _ (by simp [c6Key])]; rfl)
  exact ⟨h.1, h.2.1⟩

/-- C9: with `enabled = true`, `read = true` but `write = false`, the
promotion inside `load_execution_id` still writes the execution id into
the local storage, even though `save_execution_id` is a no-op under the
same toggles — only the `enabled` and `read` flags gate the promotion
write. -/
theorem C9_promotion_ignores_write_toggle (c : AthenaCache)
    (database : Option (List Char)) (sql : List Char)
    (lst rst : Storage) (xid : List Char)
    (hen : c.enabled = true) (hrd : c.read = true) (hwr : c.write = false)
    (hloc : c.local_storage = some lst) (hrem : c.remote_storage = some rst)
    (hmiss : lst.get (_get_execution_key database sql) = none)
    (hhit : rst.get (_get_execution_key database sql) = some xid) :
    (c.load_execution_id database sql).2.local_storage =
      some (lst.set (_get_execution_key database sql) xid) ∧
    (∀ xid' : List Char, c.save_execution_id database sql xid' = c) := by
  refine ⟨(C6_promotion c database sql lst rst xid hen hrd hloc hrem hmiss hhit).2.1, ?_⟩
  intro xid'
  rw [AthenaCache.save_execution_id, hen, hwr]
  rfl

/-- Witness for C9: under `write = false` the load still promotes into the
local store while `save_execution_id` leaves the cache untouched. -/
theorem C9_promotion_ignores_write_toggle_witness :
    (c9Cache.load_execution_id none selectOneSql).2.local_storage =
        some (Storage.set ⟨[]⟩ c9Key ['i']) ∧
      c9Cache.save_execution_id none selectOneSql ['j'] = c9Cache := by
  have h := C9_promotion_ignores_write_toggle c9Cache
    none selectOneSql ⟨[]⟩ ⟨[(c9Key, ['i'])]⟩ ['i']
    rfl rfl rfl rfl rfl rfl (by rw [Storage.get, List.find?_cons_of_pos _ (by simp [c9Key])]; rfl)
  exact ⟨h.1, h.2 ['j']⟩

/-! ### Terminal-state memoization -/

/-- C8: a memoized snapshot is returned as-is with no further poll (the
world, hence the poll counter, is unchanged); an unmemoized query polls
once and stores the snapshot exactly when it is terminal; a non-terminal
snapshot is never stored. -/
theorem C8_terminal_memoization :
    (∀ (env : ProxyEnv) (q : Query) (w : World) (i : QueryInfo),
        q._info = some i → Query.get_info env q w = (i, q, w)) ∧
    (∀ (env : ProxyEnv) (q : Query) (w : World),
        q._info = none → (env.infoAt w.pollCount).finished = true →
        Query.get_info env q w =
          (env.infoAt w.pollCount, { q with _info := some (env.infoAt w.pollCount) },
            { w with pollCount := w.pollCount + 1 })) ∧
    (∀ (env : ProxyEnv) (q : Query) (w : World),
        q._info = none → (env.infoAt w.pollCount).finished = false →
        Query.get_info env q w =
          (env.infoAt w.pollCount, q, { w with pollCount := w.pollCount + 1 })) := by
  refine ⟨?_, ?_, ?_⟩
  · intro env q w i h
    rw [Query.get_info, h]
  · intro env q w h hfin
    rw [Query.get_info, h]
    simp only [hfin, if_true]
  · intro env q w h hfin
    rw [Query.get_info, h]
    simp only [hfin, Bool.false_eq_true, if_false]

/-- Witness for C8: a terminal snapshot is stored by the first poll and
then served without polling; a running snapshot is not stored. -/
theorem C8_terminal_memoization_witness :
    ((⟨['x'], some ⟨"SUCCEEDED", none, selectOneSql⟩, true⟩ : Query)._info =
        some ⟨"SUCCEEDED", none, selectOneSql⟩ ∧
      Query.get_info succeedEnv ⟨['x'], some ⟨"SUCCEEDED", none, selectOneSql⟩, true⟩
          sampleWorld =
        (⟨"SUCCEEDED", none, selectOneSql⟩,
          ⟨['x'], some ⟨"SUCCEEDED", none, selectOneSql⟩, true⟩, sampleWorld)) ∧
    (sampleQuery._info = none ∧ (succeedEnv.infoAt sampleWorld.pollCount).finished = true ∧
      Query.get_info succeedEnv sampleQuery sampleWorld =
        (succeedEnv.infoAt sampleWorld.pollCount,
          { sampleQuery with _info := some (succeedEnv.infoAt sampleWorld.pollCount) },
          { sampleWorld with pollCount := sampleWorld.pollCount + 1 })) ∧
    (sampleQuery._info = none ∧
      (doubleInterruptEnv.infoAt sampleWorld.pollCount).finished = false ∧
      Query.get_info doubleInterruptEnv sampleQuery sampleWorld =
        (doubleInterruptEnv.infoAt sampleWorld.pollCount, sampleQuery,
          { sampleWorld with pollCount := sampleWorld.pollCount + 1 })) :=
  ⟨⟨rfl, C8_terminal_memoization.1 succeedEnv _ sampleWorld _ rfl⟩,
    ⟨rfl, by decide, C8_terminal_memoization.2.1 succeedEnv sampleQuery sampleWorld rfl
      (by decide)⟩,
    ⟨rfl, by decide, C8_terminal_memoization.2.2 doubleInterruptEnv sampleQuery sampleWorld rfl
      (by decide)⟩⟩

/-! ### Frame lemmas for the polling state machine -/

theorem get_info_components (env : ProxyEnv) (q : Query) (w : World) :
    (Query.get_info env q w).2.1.execution_id = q.execution_id ∧
    (Query.get_info env q w).2.1.kill_on_interrupt = q.kill_on_interrupt ∧
    (Query.get_info env q w).2.2.cache = w.cache ∧
    (Query.get_info env q w).2.2.cancelCount = w.cancelCount ∧
    (Query.get_info env q w).2.2.fetchCount = w.fetchCount ∧
    (Query.get_info env q w).2.2.sleepCount = w.sleepCount := by
  obtain ⟨eid, oinfo, ki⟩ := q
  cases oinfo with
  | some i => exact ⟨rfl, rfl, rfl, rfl, rfl, rfl⟩
  | none =>
    rw [Query.get_info]
    by_cases hf : (env.infoAt w.pollCount).finished = true
    · simp [hf]
    · simp [hf]

theorem joinAux_potential (env : ProxyEnv) :
    ∀ (fuel : Nat) (cc : Bool) (q : Query) (w : World),
      (Query.joinAux env fuel cc q w).2.1.cancelCount +
          (if (Query.joinAux env fuel cc q w).1.kill_on_interrupt then 1 else 0) ≤
        w.cancelCount + (if q.kill_on_interrupt then 1 else 0) := by
  intro fuel
  induction fuel with
  | zero =>
    intro cc q w
    exact Nat.le_refl _
  | succ fuel ih =>
    intro cc q w
    rw [Query.joinAux]
    by_cases hcc : (cc && w.cache.has_results q.execution_id) = true
    · rw [if_pos hcc]
    · rw [if_neg hcc]
      rcases hgi : Query.get_info env q w with ⟨info, q1, w1⟩
      have hcomp := get_info_components env q w
      rw [hgi] at hcomp
      have hki : q1.kill_on_interrupt = q.kill_on_interrupt := hcomp.2.1
      have hcan : w1.cancelCount = w.cancelCount := hcomp.2.2.2.1
      by_cases hfin : info.finished = true
      · simp only [hfin, if_true]
        cases hchk : info.check with
        | some p =>
          obtain ⟨st, reason⟩ := p
          simp only [hchk]
          show w1.cancelCount + (if q1.kill_on_interrupt = true then 1 else 0) ≤
            w.cancelCount + (if q.kill_on_interrupt = true then 1 else 0)
          rw [hcan, hki]
        | none =>
          simp only [hchk]
          show w1.cancelCount + (if q1.kill_on_interrupt = true then 1 else 0) ≤
            w.cancelCount + (if q.kill_on_interrupt = true then 1 else 0)
          rw [hcan, hki]
      · simp only [hfin, Bool.false_eq_true, if_false]
        by_cases hint : env.interrupted w1.sleepCount = true
        · simp only [hint, if_true]
          by_cases hki1 : q1.kill_on_interrupt = true
          · have hqki : q.kill_on_interrupt = true := by rw [← hki]; exact hki1
            have hleg : w1.cancelCount + 1 ≤
                w.cancelCount + (if q.kill_on_interrupt = true then 1 else 0) := by
              rw [hcan, hqki]
              exact Nat.le_refl _
            simp only [hki1, Bool.not_true, Bool.false_eq_true, if_false]
            split
            next q3 w4 heq =>
              have h1 := ih true ⟨q1.execution_id, q1._info, false⟩
                (Query.kill { w1 with sleepCount := w1.sleepCount + 1 })
              rw [heq] at h1
              have h1' : w4.cancelCount + (if q3.kill_on_interrupt = true then 1 else 0) ≤
                  w1.cancelCount + 1 := h1
              exact Nat.le_trans (ih false q3 w4) (Nat.le_trans h1' hleg)
            next r heq =>
              have h1 := ih true ⟨q1.execution_id, q1._info, false⟩
                (Query.kill { w1 with sleepCount := w1.sleepCount + 1 })
              exact Nat.le_trans h1 hleg
          · have hq1f : q1.kill_on_interrupt = false := by
              revert hki1; cases q1.kill_on_interrupt <;> simp
            rw [hq1f]
            simp only [Bool.not_false, if_pos rfl]
            show w1.cancelCount + (if q1.kill_on_interrupt = true then 1 else 0) ≤
              w.cancelCount + (if q.kill_on_interrupt = true then 1 else 0)
            rw [hcan, hki]
        · simp only [hint, Bool.false_eq_true, if_false]
          have h := ih false q1 { w1 with sleepCount := w1.sleepCount + 1 }
          exact Nat.le_trans h (by rw [hcan, hki])

theorem joinAux_noKill (env : ProxyEnv) :
    ∀ (fuel : Nat) (cc : Bool) (q : Query) (w : World),
      q.kill_on_interrupt = false →
      (Query.joinAux env fuel cc q w).2.1.cancelCount = w.cancelCount ∧
      (Query.joinAux env fuel cc q w).1.kill_on_interrupt = false := by
  intro fuel
  induction fuel with
  | zero =>
    intro cc q w hk
    exact ⟨rfl, hk⟩
  | succ fuel ih =>
    intro cc q w hk
    rw [Query.joinAux]
    by_cases hcc : (cc && w.cache.has_results q.execution_id) = true
    · rw [if_pos hcc]
      exact ⟨rfl, hk⟩
    · rw [if_neg hcc]
      rcases hgi : Query.get_info env q w with ⟨info, q1, w1⟩
      have hcomp := get_info_components env q w
      rw [hgi] at hcomp
      have hki : q1.kill_on_interrupt = q.kill_on_interrupt := hcomp.2.1
      have hcan : w1.cancelCount = w.cancelCount := hcomp.2.2.2.1
      have hk1 : q1.kill_on_interrupt = false := by rw [hki, hk]
      by_cases hfin : info.finished = true
      · simp only [hfin, if_true]
        cases hchk : info.check with
        | some p =>
          obtain ⟨st, reason⟩ := p
          simp only [hchk]
          exact ⟨hcan, hk1⟩
        | none =>
          simp only [hchk]
          exact ⟨hcan, hk1⟩
      · simp only [hfin, Bool.false_eq_true, if_false]
        by_cases hint : env.interrupted w1.sleepCount = true
        · simp only [hint, if_true]
          rw [hk1]
          simp only [Bool.not_false, if_pos rfl]
          exact ⟨hcan, hk1⟩
        · simp only [hint, Bool.false_eq_true, if_false]
          have h := ih false q1 { w1 with sleepCount := w1.sleepCount + 1 } hk1
          exact ⟨by rw [h.1, hcan], h.2⟩

theorem fetch_and_cache_eq (env : ProxyEnv) (q1 : Query) (w1 : World)
    (info : QueryInfo) (q2 : Query) (w2 : World)
    (hgi : Query.get_info env q1 w1 = (info, q2, w2)) :
    Query.fetch_and_cache env q1 w1 =
      (q2,
        if is_select info.sql
          then { w2 with
                  fetchCount := w2.fetchCount + 1
                  cache := AthenaCache.save_results w2.cache q2.execution_id env.results }
          else { w2 with fetchCount := w2.fetchCount + 1 },
        .ok env.results) := by
  rw [Query.fetch_and_cache, hgi]

theorem get_results_load_error (env : ProxyEnv) (fuel : Nat) (q : Query) (w : World)
    (e : CsvError) (hl : w.cache.load_results q.execution_id = .error e) :
    Query.get_results env fuel q w = (q, w, .formatError e) := by
  rw [Query.get_results, hl]

theorem get_results_load_hit (env : ProxyEnv) (fuel : Nat) (q : Query) (w : World)
    (r : QueryResults) (hl : w.cache.load_results q.execution_id = .ok (some r)) :
    Query.get_results env fuel q w = (q, w, .ok r) := by
  rw [Query.get_results, hl]

theorem get_results_after_join_ok (env : ProxyEnv) (fuel : Nat) (q : Query) (w : World)
    (q1 : Query) (w1 : World)
    (hl : w.cache.load_results q.execution_id = .ok none)
    (hj : Query.join env fuel q w = (q1, w1, .ok)) :
    Query.get_results env fuel q w = Query.fetch_and_cache env q1 w1 := by
  rw [Query.get_results, hl, hj]

theorem get_results_join_queryError (env : ProxyEnv) (fuel : Nat) (q : Query) (w : World)
    (q1 : Query) (w1 : World) (st : String) (reason : Option String)
    (hl : w.cache.load_results q.execution_id = .ok none)
    (hj : Query.join env fuel q w = (q1, w1, .queryError st reason)) :
    Query.get_results env fuel q w = (q1, w1, .queryError st reason) := by
  rw [Query.get_results, hl, hj]

theorem get_results_join_interrupted (env : ProxyEnv) (fuel : Nat) (q : Query) (w : World)
    (q1 : Query) (w1 : World)
    (hl : w.cache.load_results q.execution_id = .ok none)
    (hj : Query.join env fuel q w = (q1, w1, .interrupted)) :
    Query.get_results env fuel q w = (q1, w1, .interrupted) := by
  rw [Query.get_results, hl, hj]

theorem get_results_join_outOfFuel (env : ProxyEnv) (fuel : Nat) (q : Query) (w : World)
    (q1 : Query) (w1 : World)
    (hl : w.cache.load_results q.execution_id = .ok none)
    (hj : Query.join env fuel q w = (q1, w1, .outOfFuel)) :
    Query.get_results env fuel q w = (q1, w1, .outOfFuel) := by
  rw [Query.get_results, hl, hj]

/-- C7: during one `join()` the state machine never issues more than one
cancel request (the cancel counter grows by at most one, and only when
`kill_on_interrupt` is set); in scenario D a signal during the first
backoff sleep produces exactly one cancel, one further status poll
reporting CANCELLED, and a query error carrying the cancelled state; a
second signal during the same wait propagates the interruption directly
with no second cancel. -/
theorem C7_single_cancel :
    (∀ (env : ProxyEnv) (fuel : Nat) (cc : Bool) (q : Query) (w : World),
        (Query.joinAux env fuel cc q w).2.1.cancelCount ≤
          w.cancelCount + (if q.kill_on_interrupt then 1 else 0)) ∧
    (Query.join scenarioDEnv 10 sampleQuery sampleWorld =
      (⟨['x'], some ⟨"CANCELLED", none, selectOneSql⟩, false⟩,
        ⟨defaultCache, 2, 0, 1, 1⟩, .queryError "CANCELLED" none)) ∧
    (Query.join doubleInterruptEnv 10 sampleQuery sampleWorld =
      (⟨['x'], none, false⟩, ⟨defaultCache, 2, 0, 1, 2⟩, .interrupted)) := by
  refine ⟨?_, by decide, by decide⟩
  intro env fuel cc q w
  exact Nat.le_trans (Nat.le_add_right _ _) (joinAux_potential env fuel cc q w)

/-- C10: the single-shot cancellation flag is per instance: a query whose
`kill_on_interrupt` is already false never cancels and keeps the flag
false, in `joinAux` (hence in every later `join()`) as well as in
`get_results`; whenever a join issued a cancel, the returned instance has
the flag false; and with the flag false an interrupted sleep propagates
immediately after the single status poll, with no cancel call. -/
theorem C10_kill_flag_per_instance :
    (∀ (env : ProxyEnv) (fuel : Nat) (cc : Bool) (q : Query) (w : World),
        q.kill_on_interrupt = false →
        (Query.joinAux env fuel cc q w).2.1.cancelCount = w.cancelCount ∧
        (Query.joinAux env fuel cc q w).1.kill_on_interrupt = false) ∧
    (∀ (env : ProxyEnv) (fuel : Nat) (cc : Bool) (q : Query) (w : World),
        w.cancelCount < (Query.joinAux env fuel cc q w).2.1.cancelCount →
        (Query.joinAux env fuel cc q w).1.kill_on_interrupt = false) ∧
    (∀ (env : ProxyEnv) (fuel : Nat) (q : Query) (w : World),
        q.kill_on_interrupt = false →
        (Query.get_results env fuel q w).2.1.cancelCount = w.cancelCount ∧
        (Query.get_results env fuel q w).1.kill_on_interrupt = false) ∧
    (∀ (env : ProxyEnv) (fuel : Nat) (q : Query) (w : World),
        q.kill_on_interrupt = false → q._info = none →
        w.cache.has_results q.execution_id = false →
        (env.infoAt w.pollCount).finished = false →
        env.interrupted w.sleepCount = true →
        Query.join env (fuel + 1) q w =
          (q, { w with pollCount := w.pollCount + 1, sleepCount := w.sleepCount + 1 },
            .interrupted)) := by
  refine ⟨fun env fuel cc q w hk => joinAux_noKill env fuel cc q w hk, ?_, ?_, ?_⟩
  · intro env fuel cc q w hlt
    have hpot := joinAux_potential env fuel cc q w
    by_contra hne
    have hflag : (Query.joinAux env fuel cc q w).1.kill_on_interrupt = true := by
      revert hne
      cases (Query.joinAux env fuel cc q w).1.kill_on_interrupt <;> simp
    have hd : (if (Query.joinAux env fuel cc q w).1.kill_on_interrupt = true then 1 else 0)
        = 1 := by
      rw [hflag]
      rfl
    have hle : (if q.kill_on_interrupt = true then 1 else 0) ≤ 1 := by
      cases q.kill_on_interrupt <;> simp
    omega
  · intro env fuel q w hk
    cases hl : w.cache.load_results q.execution_id with
    | error e =>
      rw [get_results_load_error env fuel q w e hl]
      exact ⟨rfl, hk⟩
    | ok o =>
      cases o with
      | some r =>
        rw [get_results_load_hit env fuel q w r hl]
        exact ⟨rfl, hk⟩
      | none =>
        rcases hj : Query.join env fuel q w with ⟨q1, w1, oc⟩
        have hjk := joinAux_noKill env fuel true q w hk
        rw [show Query.joinAux env fuel true q w = Query.join env fuel q w from rfl, hj] at hjk
        have hw1 : w1.cancelCount = w.cancelCount := hjk.1
        have hq1 : q1.kill_on_interrupt = false := hjk.2
        cases oc with
        | ok =>
          rw [get_results_after_join_ok env fuel q w q1 w1 hl hj]
          rcases hgi : Query.get_info env q1 w1 with ⟨info, q2, w2⟩
          have hc := get_info_components env q1 w1
          rw [hgi] at hc
          have hw2 : w2.cancelCount = w1.cancelCount := hc.2.2.2.1
          have hq2 : q2.kill_on_interrupt = q1.kill_on_interrupt := hc.2.1
          rw [fetch_and_cache_eq env q1 w1 info q2 w2 hgi]
          refine ⟨?_, hq2.trans hq1⟩
          by_cases hsel : is_select info.sql = true
          · simp only [hsel, if_true]
            exact hw2.trans hw1
          · simp only [hsel, Bool.false_eq_true, if_false]
            exact hw2.trans hw1
        | queryError st reason =>
          rw [get_results_join_queryError env fuel q w q1 w1 st reason hl hj]
          exact ⟨hw1, hq1⟩
        | interrupted =>
          rw [get_results_join_interrupted env fuel q w q1 w1 hl hj]
          exact ⟨hw1, hq1⟩
        | outOfFuel =>
          rw [get_results_join_outOfFuel env fuel q w q1 w1 hl hj]
          exact ⟨hw1, hq1⟩
  · intro env fuel q w hk hinfo hres hfin hint
    have hgi : Query.get_info env q w =
        (env.infoAt w.pollCount, q, { w with pollCount := w.pollCount + 1 }) := by
      rw [Query.get_info, hinfo]
      simp only [hfin, Bool.false_eq_true, if_false]
    rw [Query.join, Query.joinAux, hres]
    simp only [Bool.and_false, Bool.false_eq_true, if_false]
    rw [hgi]
    simp only [hfin, Bool.false_eq_true, if_false]
    have hint2 : env.interrupted ({ w with pollCount := w.pollCount + 1 } : World).sleepCount
        = true := hint
    simp only [hint2, if_true]
    rw [hk]
    simp only [Bool.not_false, if_pos rfl]
    rfl

/-- Witness for C10: concrete instances — a flag-false query joined under
constant interrupts never cancels; the scenario-D join (which cancelled
once) returns the instance with the flag cleared; a flag-false
`get_results` never cancels; and a flag-false join propagates a signal
immediately. -/
theorem C10_kill_flag_per_instance_witness :
    ((⟨['x'], none, false⟩ : Query).kill_on_interrupt = false ∧
      (Query.joinAux doubleInterruptEnv 10 true ⟨['x'], none, false⟩
          sampleWorld).2.1.cancelCount = sampleWorld.cancelCount ∧
      (Query.joinAux doubleInterruptEnv 10 true ⟨['x'], none, false⟩
          sampleWorld).1.kill_on_interrupt = false) ∧
    (sampleWorld.cancelCount <
        (Query.joinAux scenarioDEnv 10 true sampleQuery sampleWorld).2.1.cancelCount ∧
      (Query.joinAux scenarioDEnv 10 true sampleQuery sampleWorld).1.kill_on_interrupt =
        false) ∧
    ((⟨['x'], none, false⟩ : Query).kill_on_interrupt = false ∧
      (Query.get_results doubleInterruptEnv 10 ⟨['x'], none, false⟩
          sampleWorld).2.1.cancelCount = sampleWorld.cancelCount ∧
      (Query.get_results doubleInterruptEnv 10 ⟨['x'], none, false⟩
          sampleWorld).1.kill_on_interrupt = false) ∧
    ((⟨['x'], none, false⟩ : Query)._info = none ∧
      sampleWorld.cache.has_results ['x'] = false ∧
      (doubleInterruptEnv.infoAt sampleWorld.pollCount).finished = false ∧
      doubleInterruptEnv.interrupted sampleWorld.sleepCount = true ∧
      Query.join doubleInterruptEnv 8 ⟨['x'], none, false⟩ sampleWorld =
        (⟨['x'], none, false⟩,
          { sampleWorld with
              pollCount := sampleWorld.pollCount + 1
              sleepCount := sampleWorld.sleepCount + 1 },
          .interrupted)) :=
  ⟨⟨rfl, (C10_kill_flag_per_instance.1 doubleInterruptEnv 10 true ⟨['x'], none, false⟩
        sampleWorld rfl).1,
      (C10_kill_flag_per_instance.1 doubleInterruptEnv 10 true ⟨['x'], none, false⟩
        sampleWorld rfl).2⟩,
    ⟨by decide, C10_kill_flag_per_instance.2.1 scenarioDEnv 10 true sampleQuery sampleWorld
      (by decide)⟩,
    ⟨rfl, (C10_kill_flag_per_instance.2.2.1 doubleInterruptEnv 10 ⟨['x'], none, false⟩
        sampleWorld rfl).1,
      (C10_kill_flag_per_instance.2.2.1 doubleInterruptEnv 10 ⟨['x'], none, false⟩
        sampleWorld rfl).2⟩,
    ⟨rfl, by decide, by decide, by decide,
      C10_kill_flag_per_instance.2.2.2 doubleInterruptEnv 7 ⟨['x'], none, false⟩ sampleWorld
        rfl rfl (by decide) (by decide) (by decide)⟩⟩

theorem get_info_sql (env : ProxyEnv) (q : Query) (w : World)
    (hP : ∀ i, q._info = some i → i.sql = env.sql) :
    (Query.get_info env q w).1.sql = env.sql ∧
    (∀ i, (Query.get_info env q w).2.1._info = some i → i.sql = env.sql) := by
  obtain ⟨eid, oinfo, ki⟩ := q
  cases oinfo with
  | some i =>
    exact ⟨hP i rfl, hP⟩
  | none =>
    rw [Query.get_info]
    by_cases hf : (env.infoAt w.pollCount).finished = true
    · simp only [hf, if_true]
      refine ⟨rfl, ?_⟩
      intro j hj
      have h2 : some (env.infoAt w.pollCount) = some j := hj
      cases h2
      rfl
    · simp only [hf, Bool.false_eq_true, if_false]
      refine ⟨rfl, ?_⟩
      intro j hj
      have h2 : (none : Option QueryInfo) = some j := hj
      cases h2

theorem joinAux_frame (env : ProxyEnv) :
    ∀ (fuel : Nat) (cc : Bool) (q : Query) (w : World),
      (Query.joinAux env fuel cc q w).1.execution_id = q.execution_id ∧
      (Query.joinAux env fuel cc q w).2.1.fetchCount = w.fetchCount ∧
      (Query.joinAux env fuel cc q w).2.1.cache = w.cache := by
  intro fuel
  induction fuel with
  | zero => intro cc q w; exact ⟨rfl, rfl, rfl⟩
  | succ fuel ih =>
    intro cc q w
    rw [Query.joinAux]
    by_cases hcc : (cc && w.cache.has_results q.execution_id) = true
    · rw [if_pos hcc]
      exact ⟨rfl, rfl, rfl⟩
    · rw [if_neg hcc]
      rcases hgi : Query.get_info env q w with ⟨info, q1, w1⟩
      have hc := get_info_components env q w
      rw [hgi] at hc
      have he1 : q1.execution_id = q.execution_id := hc.1
      have hf1 : w1.fetchCount = w.fetchCount := hc.2.2.2.2.1
      have hca1 : w1.cache = w.cache := hc.2.2.1
      by_cases hfin : info.finished = true
      · simp only [hfin, if_true]
        cases hchk : info.check with
        | some p =>
          obtain ⟨st, reason⟩ := p
          simp only [hchk]
          exact ⟨he1, hf1, hca1⟩
        | none =>
          simp only [hchk]
          exact ⟨he1, hf1, hca1⟩
      · simp only [hfin, Bool.false_eq_true, if_false]
        by_cases hint : env.interrupted w1.sleepCount = true
        · simp only [hint, if_true]
          by_cases hki1 : q1.kill_on_interrupt = true
          · simp only [hki1, Bool.not_true, Bool.false_eq_true, if_false]
            split
            next q3 w4 heq =>
              have h1 := ih true ⟨q1.execution_id, q1._info, false⟩
                (Query.kill { w1 with sleepCount := w1.sleepCount + 1 })
              rw [heq] at h1
              have h1e : q3.execution_id = q1.execution_id := h1.1
              have h1f : w4.fetchCount = w1.fetchCount := h1.2.1
              have h1c : w4.cache = w1.cache := h1.2.2
              have h2 := ih false q3 w4
              exact ⟨(h2.1.trans h1e).trans he1, (h2.2.1.trans h1f).trans hf1,
                (h2.2.2.trans h1c).trans hca1⟩
            next r heq =>
              have h1 := ih true ⟨q1.execution_id, q1._info, false⟩
                (Query.kill { w1 with sleepCount := w1.sleepCount + 1 })
              exact ⟨h1.1.trans he1, h1.2.1.trans hf1, h1.2.2.trans hca1⟩
          · have hq1f : q1.kill_on_interrupt = false := by
              revert hki1
              cases q1.kill_on_interrupt <;> simp
            rw [hq1f]
            simp only [Bool.not_false, if_pos rfl]
            exact ⟨he1, hf1, hca1⟩
        · simp only [hint, Bool.false_eq_true, if_false]
          have h := ih false q1 { w1 with sleepCount := w1.sleepCount + 1 }
          exact ⟨h.1.trans he1, h.2.1.trans hf1, h.2.2.trans hca1⟩

theorem joinAux_info_sql (env : ProxyEnv) :
    ∀ (fuel : Nat) (cc : Bool) (q : Query) (w : World),
      (∀ i, q._info = some i → i.sql = env.sql) →
      ∀ i, (Query.joinAux env fuel cc q w).1._info = some i → i.sql = env.sql := by
  intro fuel
  induction fuel with
  | zero => intro cc q w hP; exact hP
  | succ fuel ih =>
    intro cc q w hP
    rw [Query.joinAux]
    by_cases hcc : (cc && w.cache.has_results q.execution_id) = true
    · rw [if_pos hcc]
      exact hP
    · rw [if_neg hcc]
      rcases hgi : Query.get_info env q w with ⟨info, q1, w1⟩
      have hP1 : ∀ i, q1._info = some i → i.sql = env.sql := by
        have h := (get_info_sql env q w hP).2
        rw [hgi] at h
        exact h
      by_cases hfin : info.finished = true
      · simp only [hfin, if_true]
        cases hchk : info.check with
        | some p =>
          obtain ⟨st, reason⟩ := p
          simp only [hchk]
          exact hP1
        | none =>
          simp only [hchk]
          exact hP1
      · simp only [hfin, Bool.false_eq_true, if_false]
        by_cases hint : env.interrupted w1.sleepCount = true
        · simp only [hint, if_true]
          by_cases hki1 : q1.kill_on_interrupt = true
          · simp only [hki1, Bool.not_true, Bool.false_eq_true, if_false]
            have hP2 : ∀ i, (⟨q1.execution_id, q1._info, false⟩ : Query)._info = some i →
                i.sql = env.sql := fun i hi => hP1 i hi
            split
            next q3 w4 heq =>
              have h1 := ih true ⟨q1.execution_id, q1._info, false⟩
                (Query.kill { w1 with sleepCount := w1.sleepCount + 1 }) hP2
              rw [heq] at h1
              have h1' : ∀ i, q3._info = some i → i.sql = env.sql := h1
              exact ih false q3 w4 h1'
            next r heq =>
              exact ih true ⟨q1.execution_id, q1._info, false⟩
                (Query.kill { w1 with sleepCount := w1.sleepCount + 1 }) hP2
          · have hq1f : q1.kill_on_interrupt = false := by
              revert hki1
              cases q1.kill_on_interrupt <;> simp
            rw [hq1f]
            simp only [Bool.not_false, if_pos rfl]
            exact hP1
        · simp only [hint, Bool.false_eq_true, if_false]
          exact ih false q1 { w1 with sleepCount := w1.sleepCount + 1 } hP1

theorem load_results_after_save (c : AthenaCache) (lst : Storage) (eid : List Char)
    (r : QueryResults)
    (hen : c.enabled = true) (hrd : c.read = true) (hwr : c.write = true)
    (hloc : c.local_storage = some lst) :
    (c.save_results eid r).load_results eid =
      (QueryResults.load (QueryResults.save r)).map some := by
  rw [AthenaCache.save_results]
  have hcond : (!(c.enabled && c.write)) = false := by
    rw [hen, hwr]
    rfl
  simp only [hcond, Bool.false_eq_true, if_false]
  rw [AthenaCache.load_results]
  have hcond2 : (!(c.enabled && c.read)) = false := by
    rw [hen, hrd]
    rfl
  have hcond3 : (!(({ c with local_storage := _save_results c.local_storage eid r } :
      AthenaCache).enabled &&
      ({ c with local_storage := _save_results c.local_storage eid r } :
      AthenaCache).read)) = false := hcond2
  simp only [hcond3, Bool.false_eq_true, if_false]
  show _load_results (_save_results c.local_storage eid r) eid = _
  rw [hloc]
  rw [show _save_results (some lst) eid r =
    some (lst.set (_get_results_key eid) (QueryResults.save r)) from rfl]
  rw [_load_results, Storage.get_set_self]

/-- C2 (amended): when the cache has a local storage configured with
caching, reading and writing enabled, the query is fresh, and the engine
reports a cacheable (SELECT) statement, then after a first successful
`get_results()` the second call is a pure cache read: it returns the same
query and world untouched (no fetch, no poll, no cancel), and the first
call performed at most one fetch.  (Without a local storage, or for a
non-SELECT statement, each call fetches again — see
`C2_get_results_counterexample`.) -/
theorem C2_get_results_idempotent (env : ProxyEnv) (fuel fuel2 : Nat) (q : Query) (w : World)
    (lst : Storage) (q1 : Query) (w1 : World) (res : QueryResults)
    (hen : w.cache.enabled = true) (hrd : w.cache.read = true) (hwr : w.cache.write = true)
    (hloc : w.cache.local_storage = some lst)
    (hinfo : q._info = none)
    (hsel : is_select env.sql = true)
    (hfirst : Query.get_results env fuel q w = (q1, w1, .ok res)) :
    (Query.get_results env fuel2 q1 w1).1 = q1 ∧
    (Query.get_results env fuel2 q1 w1).2.1 = w1 ∧
    w1.fetchCount ≤ w.fetchCount + 1 := by
  cases hl : w.cache.load_results q.execution_id with
  | error e =>
    rw [get_results_load_error env fuel q w e hl] at hfirst
    injection hfirst with h1 h23
    injection h23 with h2 h3
    exact absurd h3 (by simp)
  | ok o =>
    cases o with
    | some r =>
      rw [get_results_load_hit env fuel q w r hl] at hfirst
      injection hfirst with h1 h23
      injection h23 with h2 h3
      subst h1
      subst h2
      rw [get_results_load_hit env fuel2 q w r hl]
      exact ⟨rfl, rfl, Nat.le_succ _⟩
    | none =>
      rcases hj : Query.join env fuel q w with ⟨qj, wj, oc⟩
      cases oc with
      | queryError st reason =>
        rw [get_results_join_queryError env fuel q w qj wj st reason hl hj] at hfirst
        injection hfirst with h1 h23
        injection h23 with h2 h3
        exact absurd h3 (by simp)
      | interrupted =>
        rw [get_results_join_interrupted env fuel q w qj wj hl hj] at hfirst
        injection hfirst with h1 h23
        injection h23 with h2 h3
        exact absurd h3 (by simp)
      | outOfFuel =>
        rw [get_results_join_outOfFuel env fuel q w qj wj hl hj] at hfirst
        injection hfirst with h1 h23
        injection h23 with h2 h3
        exact absurd h3 (by simp)
      | ok =>
        rcases hgi : Query.get_info env qj wj with ⟨info, q2, w2⟩
        rw [get_results_after_join_ok env fuel q w qj wj hl hj,
          fetch_and_cache_eq env qj wj info q2 w2 hgi] at hfirst
        have hPq : ∀ i, q._info = some i → i.sql = env.sql := by
          intro i hi
          rw [hinfo] at hi
          exact absurd hi (by simp)
        have hPj : ∀ i, qj._info = some i → i.sql = env.sql := by
          have h := joinAux_info_sql env fuel true q w hPq
          rw [show Query.joinAux env fuel true q w = Query.join env fuel q w from rfl,
            hj] at h
          exact h
        have hisql : info.sql = env.sql := by
          have h := (get_info_sql env qj wj hPj).1
          rw [hgi] at h
          exact h
        have hsel2 : is_select info.sql = true := by
          rw [hisql]
          exact hsel
        rw [if_pos hsel2] at hfirst
        injection hfirst with h1 h23
        injection h23 with h2 h3
        have hframe := joinAux_frame env fuel true q w
        rw [show Query.joinAux env fuel true q w = Query.join env fuel q w from rfl,
          hj] at hframe
        have hjf : wj.fetchCount = w.fetchCount := hframe.2.1
        have hjc : wj.cache = w.cache := hframe.2.2
        have hgic := get_info_components env qj wj
        rw [hgi] at hgic
        have h2f : w2.fetchCount = wj.fetchCount := hgic.2.2.2.2.1
        have h2c : w2.cache = wj.cache := hgic.2.2.1
        subst h1
        have hw1cache : w1.cache =
            AthenaCache.save_results w2.cache q2.execution_id env.results := by
          rw [← h2]
        have hw1fetch : w1.fetchCount = w2.fetchCount + 1 := by
          rw [← h2]
        have hcache2 : w1.cache =
            AthenaCache.save_results w.cache q2.execution_id env.results := by
          rw [hw1cache, h2c, hjc]
        have hload2 : w1.cache.load_results q2.execution_id =
            (QueryResults.load (QueryResults.save env.results)).map some := by
          rw [hcache2,
            load_results_after_save w.cache lst q2.execution_id env.results hen hrd hwr hloc]
        have hfb : w1.fetchCount <= w.fetchCount + 1 := by
          rw [hw1fetch, h2f, hjf]
        cases hparse : QueryResults.load (QueryResults.save env.results) with
        | error e =>
          have hload3 : w1.cache.load_results q2.execution_id = .error e := by
            rw [hload2, hparse]
            rfl
          rw [get_results_load_error env fuel2 q2 w1 e hload3]
          exact ⟨rfl, rfl, hfb⟩
        | ok r2 =>
          have hload3 : w1.cache.load_results q2.execution_id = .ok (some r2) := by
            rw [hload2, hparse]
            rfl
          rw [get_results_load_hit env fuel2 q2 w1 r2 hload3]
          exact ⟨rfl, rfl, hfb⟩

/-- Counterexample to C2 as stated: with the default cache (no storage
configured, as built by `Athena.__init__`), a successful SELECT query
fetched by a first `get_results()` call is fetched again by the second
call on the same instance — the fetch counter reaches 2. -/
theorem C2_get_results_counterexample :
    (Query.get_results succeedEnv 5 sampleQuery sampleWorld).2.1.fetchCount = 1 ∧
    (Query.get_results succeedEnv 5
        (Query.get_results succeedEnv 5 sampleQuery sampleWorld).1
        (Query.get_results succeedEnv 5 sampleQuery sampleWorld).2.1).2.1.fetchCount = 2 :=
  ⟨by decide, by decide⟩

/-- Witness for C2: with an empty local storage configured, the first call
fetches once and the second call returns the same query and world
untouched. -/
theorem C2_get_results_idempotent_witness :
    c2World.cache.enabled = true ∧ c2World.cache.read = true ∧
    c2World.cache.write = true ∧ c2World.cache.local_storage = some ⟨[]⟩ ∧
    sampleQuery._info = none ∧ is_select succeedEnv.sql = true ∧
    Query.get_results succeedEnv 5 sampleQuery c2World =
      (c2First.1, c2First.2.1, .ok sampleResults) ∧
    (Query.get_results succeedEnv 7 c2First.1 c2First.2.1).1 = c2First.1 ∧
    (Query.get_results succeedEnv 7 c2First.1 c2First.2.1).2.1 = c2First.2.1 ∧
    c2First.2.1.fetchCount ≤ c2World.fetchCount + 1 := by
  have hfirst : Query.get_results succeedEnv 5 sampleQuery c2World =
      (c2First.1, c2First.2.1, .ok sampleResults) := by decide
  have h := C2_get_results_idempotent succeedEnv 5 7 sampleQuery c2World ⟨[]⟩
    c2First.1 c2First.2.1 sampleResults rfl rfl rfl rfl rfl (by decide) hfirst
  exact ⟨rfl, rfl, rfl, rfl, rfl, by decide, hfirst, h.1, h.2.1, h.2.2⟩

/-- Witness for C4: concrete instances of the hypotheses of the general
clamped-Fibonacci characterization. -/
theorem C4_backoff_sequence_witness :
    (10 ≤ 12 ∧ backoffSeq 60 12 = 60) ∧
    (1 ≤ 7 ∧ backoffSeq 7 5 = min (fib 5) 7 ∧ backoffSeq 7 5 ≤ backoffSeq 7 (5 + 1)) :=
  ⟨⟨by decide, C4_backoff_sequence.2.1 12 (by decide)⟩,
    ⟨by decide, (C4_backoff_sequence.2.2 7 (by decide) 5).1,
      (C4_backoff_sequence.2.2 7 (by decide) 5).2⟩⟩


theorem utf8_decode_encode (c : Char) (rest : List Nat) :
    utf8DecodeSM 0 0 (utf8Encode c ++ rest) =
      (utf8DecodeSM 0 0 rest).map (fun l => c.toNat :: l) := by
  rw [utf8Encode]
  by_cases h1 : c.toNat < 128
  · rw [if_pos h1]
    simp only [List.cons_append, List.nil_append]
    rw [utf8DecodeSM, if_pos h1]
  · rw [if_neg h1]
    by_cases h2 : c.toNat < 2048
    · rw [if_pos h2]
      simp only [List.cons_append, List.nil_append]
      rw [utf8DecodeSM]
      rw [if_neg (by omega : ¬(192 + c.toNat / 64 < 128))]
      rw [if_pos (by omega : 192 + c.toNat / 64 < 224)]
      rw [utf8DecodeSM]
      rw [show (192 + c.toNat / 64 - 192) * 64 + (128 + c.toNat % 64 - 128) = c.toNat from by
        omega]
    · rw [if_neg h2]
      by_cases h3 : c.toNat < 65536
      · rw [if_pos h3]
        simp only [List.cons_append, List.nil_append]
        rw [utf8DecodeSM]
        rw [if_neg (by omega : ¬(224 + c.toNat / 4096 < 128))]
        rw [if_neg (by omega : ¬(224 + c.toNat / 4096 < 224))]
        rw [if_pos (by omega : 224 + c.toNat / 4096 < 240)]
        rw [utf8DecodeSM]
        rw [utf8DecodeSM]
        rw [show ((224 + c.toNat / 4096 - 224) * 64 + (128 + c.toNat / 64 % 64 - 128)) * 64 +
            (128 + c.toNat % 64 - 128) = c.toNat from by omega]
      · rw [if_neg h3]
        simp only [List.cons_append, List.nil_append]
        rw [utf8DecodeSM]
        rw [if_neg (by omega : ¬(240 + c.toNat / 262144 < 128))]
        rw [if_neg (by omega : ¬(240 + c.toNat / 262144 < 224))]
        rw [if_neg (by omega : ¬(240 + c.toNat / 262144 < 240))]
        rw [utf8DecodeSM]
        rw [utf8DecodeSM]
        rw [utf8DecodeSM]
        rw [show (((240 + c.toNat / 262144 - 240) * 64 + (128 + c.toNat / 4096 % 64 - 128)) * 64 +
            (128 + c.toNat / 64 % 64 - 128)) * 64 + (128 + c.toNat % 64 - 128) = c.toNat from by
          omega]

theorem utf8_decode_bytes_append (s : List Char) (rest : List Nat) :
    utf8DecodeSM 0 0 (utf8Bytes s ++ rest) =
      (utf8DecodeSM 0 0 rest).map (fun l => s.map Char.toNat ++ l) := by
  induction s with
  | nil =>
    simp only [utf8Bytes, List.flatMap_nil, List.nil_append, List.map_nil]
    cases h : utf8DecodeSM 0 0 rest <;> simp
  | cons c cs ih =>
    rw [utf8Bytes, List.flatMap_cons, List.append_assoc]
    rw [show (cs.flatMap utf8Encode : List Nat) = utf8Bytes cs from rfl]
    rw [utf8_decode_encode, ih]
    cases h : utf8DecodeSM 0 0 rest <;> simp

theorem char_toNat_injective : Function.Injective Char.toNat := by
  intro a b h
  apply Char.ext
  unfold Char.toNat at h
  exact UInt32.ext h

theorem utf8_decode_bytes (s : List Char) :
    utf8DecodeSM 0 0 (utf8Bytes s) = some (s.map Char.toNat) := by
  have h := utf8_decode_bytes_append s []
  rw [List.append_nil] at h
  rw [h, show utf8DecodeSM 0 0 ([] : List Nat) = some [] from rfl]
  simp

theorem utf8Bytes_inj (s1 s2 : List Char) (h : utf8Bytes s1 = utf8Bytes s2) : s1 = s2 := by
  have d1 := utf8_decode_bytes s1
  have d2 := utf8_decode_bytes s2
  rw [h, d2] at d1
  apply List.map_injective_iff.mpr char_toNat_injective
  exact ((Option.some.injEq _ _).mp d1).symm

theorem hexVal_hexUpperByte (x : Nat) (h : x < 16) : hexVal (hexUpperByte x) = some x := by
  rw [hexUpperByte]
  by_cases h10 : x < 10
  · rw [if_pos h10, hexVal, if_pos (by omega : 48 ≤ 48 + x ∧ 48 + x ≤ 57)]
    rw [show 48 + x - 48 = x from by omega]
  · rw [if_neg h10, hexVal, if_neg (by omega : ¬(48 ≤ 55 + x ∧ 55 + x ≤ 57))]
    rw [if_pos (by omega : 65 ≤ 55 + x ∧ 55 + x ≤ 70)]
    rw [show 55 + x - 55 = x from by omega]

theorem safe_ne (b : Nat) (hs : alwaysSafeByte b = true) : b ≠ 37 ∧ b ≠ 43 := by
  simp only [alwaysSafeByte, decide_eq_true_eq] at hs
  omega

theorem unquote_quoteByte (b : Nat) (hb : b < 256) (rest : List Nat) :
    unquoteSM 0 0 (quoteByte b ++ rest) = (unquoteSM 0 0 rest).map (fun l => b :: l) := by
  rw [quoteByte]
  by_cases hs : alwaysSafeByte b = true
  · rw [if_pos hs]
    simp only [List.cons_append, List.nil_append]
    rw [unquoteSM, if_neg (safe_ne b hs).1, if_neg (safe_ne b hs).2, if_pos hs]
  · rw [if_neg hs]
    by_cases h32 : b = 32
    · rw [if_pos h32]
      simp only [List.cons_append, List.nil_append]
      rw [unquoteSM, if_neg (by omega : ¬(43 : Nat) = 37), if_pos (rfl : (43 : Nat) = 43)]
      rw [h32]
    · rw [if_neg h32]
      simp only [List.cons_append, List.nil_append]
      rw [unquoteSM, if_pos (rfl : (37 : Nat) = 37)]
      rw [unquoteSM, hexVal_hexUpperByte (b / 16) (by omega)]
      rw [if_pos Option.isSome_some]
      simp only [Option.getD_some]
      rw [show (0 + 1 : Nat) = 1 from rfl]
      rw [unquoteSM, hexVal_hexUpperByte (b % 16) (by omega)]
      rw [if_pos Option.isSome_some]
      simp only [Option.getD_some]
      rw [show 16 * (b / 16) + b % 16 = b from by omega]

theorem utf8Encode_lt (c : Char) : ∀ x ∈ utf8Encode c, x < 256 := by
  have hv : c.toNat < 1114112 := by
    rcases c.valid with h | ⟨h1, h2⟩
    · exact Nat.lt_trans h (by norm_num)
    · exact h2
  intro x hx
  rw [utf8Encode] at hx
  by_cases h1 : c.toNat < 128
  · rw [if_pos h1] at hx
    simp only [List.mem_singleton] at hx
    omega
  · rw [if_neg h1] at hx
    by_cases h2 : c.toNat < 2048
    · rw [if_pos h2] at hx
      simp only [List.mem_cons, List.mem_singleton, List.not_mem_nil, or_false] at hx
      omega
    · rw [if_neg h2] at hx
      by_cases h3 : c.toNat < 65536
      · rw [if_pos h3] at hx
        simp only [List.mem_cons, List.mem_singleton, List.not_mem_nil, or_false] at hx
        omega
      · rw [if_neg h3] at hx
        simp only [List.mem_cons, List.mem_singleton, List.not_mem_nil, or_false] at hx
        omega

theorem utf8Bytes_lt (s : List Char) : ∀ x ∈ utf8Bytes s, x < 256 := by
  intro x hx
  rw [utf8Bytes, List.mem_flatMap] at hx
  obtain ⟨c, _, hxc⟩ := hx
  exact utf8Encode_lt c x hxc

theorem unquote_flat (bs : List Nat) (h : ∀ x ∈ bs, x < 256) (rest : List Nat) :
    unquoteSM 0 0 (bs.flatMap quoteByte ++ rest) =
      (unquoteSM 0 0 rest).map (fun l => bs ++ l) := by
  induction bs with
  | nil =>
    simp only [List.flatMap_nil, List.nil_append]
    cases hr : unquoteSM 0 0 rest <;> simp
  | cons b bs ih =>
    rw [List.flatMap_cons, List.append_assoc]
    rw [unquote_quoteByte b (h b (List.mem_cons_self b bs)) _]
    rw [ih (fun x hx => h x (List.mem_cons_of_mem b hx))]
    cases hr : unquoteSM 0 0 rest <;> simp

theorem quote_plus_decode (s : List Char) :
    unquoteSM 0 0 (quote_plus s) = some (utf8Bytes s) := by
  have h := unquote_flat (utf8Bytes s) (utf8Bytes_lt s) []
  rw [List.append_nil] at h
  rw [quote_plus, h, show unquoteSM 0 0 ([] : List Nat) = some [] from rfl]
  simp

theorem quote_plus_inj (s1 s2 : List Char) (h : quote_plus s1 = quote_plus s2) : s1 = s2 := by
  have d1 := quote_plus_decode s1
  have d2 := quote_plus_decode s2
  rw [h, d2] at d1
  exact utf8Bytes_inj s1 s2 ((Option.some.injEq _ _).mp d1).symm


theorem hexUpperByte_ne_38 (y : Nat) : hexUpperByte y ≠ 38 := by
  rw [hexUpperByte]
  split <;> omega

theorem quoteByte_ne_38 (b : Nat) : ∀ x ∈ quoteByte b, x ≠ 38 := by
  intro x hx
  rw [quoteByte] at hx
  by_cases hs : alwaysSafeByte b = true
  · rw [if_pos hs] at hx
    simp only [List.mem_singleton] at hx
    have := safe_ne b hs
    simp only [alwaysSafeByte, decide_eq_true_eq] at hs
    omega
  · rw [if_neg hs] at hx
    by_cases h32 : b = 32
    · rw [if_pos h32] at hx
      simp only [List.mem_singleton] at hx
      omega
    · rw [if_neg h32] at hx
      simp only [List.mem_cons, List.mem_singleton, List.not_mem_nil, or_false] at hx
      rcases hx with h | h | h
      · omega
      · rw [h]; exact hexUpperByte_ne_38 _
      · rw [h]; exact hexUpperByte_ne_38 _

theorem quote_plus_ne_38 (s : List Char) : ∀ x ∈ quote_plus s, x ≠ 38 := by
  intro x hx
  rw [quote_plus, List.mem_flatMap] at hx
  obtain ⟨b, _, hxb⟩ := hx
  exact quoteByte_ne_38 b x hxb

theorem append_sep_inj :
    ∀ (a b r1 r2 : List Nat), (∀ x ∈ a, x ≠ 38) → (∀ x ∈ b, x ≠ 38) →
      a ++ 38 :: r1 = b ++ 38 :: r2 → a = b ∧ r1 = r2 := by
  intro a
  induction a with
  | nil =>
    intro b r1 r2 _ hb h
    cases b with
    | nil =>
      simp only [List.nil_append, List.cons.injEq, true_and] at h
      exact ⟨rfl, h⟩
    | cons y bs =>
      simp only [List.nil_append, List.cons_append, List.cons.injEq] at h
      exact absurd h.1.symm (hb y (List.mem_cons_self y bs))
  | cons x as ih =>
    intro b r1 r2 ha hb h
    cases b with
    | nil =>
      simp only [List.nil_append, List.cons_append, List.cons.injEq] at h
      exact absurd h.1 (ha x (List.mem_cons_self x as))
    | cons y bs =>
      simp only [List.cons_append, List.cons.injEq] at h
      obtain ⟨hxy, htail⟩ := h
      obtain ⟨h1, h2⟩ := ih bs r1 r2 (fun z hz => ha z (List.mem_cons_of_mem x hz))
        (fun z hz => hb z (List.mem_cons_of_mem y hz)) htail
      exact ⟨by rw [hxy, h1], h2⟩

theorem urlencode_parts_inj (d1 d2 : Option (List Char)) (s1 s2 : List Char)
    (h : urlencodeParts (executionKeyParts d1 s1) = urlencodeParts (executionKeyParts d2 s2)) :
    d1 = d2 ∧ s1 = s2 := by
  cases d1 with
  | none =>
    cases d2 with
    | none =>
      have h' : ([115, 113, 108] : List Nat) ++ 61 :: quote_plus s1 =
          ([115, 113, 108] : List Nat) ++ 61 :: quote_plus s2 := h
      simp only [List.cons_append, List.nil_append, List.cons.injEq, true_and] at h'
      exact ⟨rfl, quote_plus_inj _ _ h'⟩
    | some db =>
      have h' : ([115, 113, 108] : List Nat) ++ 61 :: quote_plus s1 =
          (([100, 97, 116, 97, 98, 97, 115, 101] : List Nat) ++ 61 :: quote_plus db) ++
            38 :: (([115, 113, 108] : List Nat) ++ 61 :: quote_plus s2) := h
      simp only [List.cons_append, List.nil_append, List.append_assoc, List.cons.injEq] at h'
      omega
  | some db1 =>
    cases d2 with
    | none =>
      have h' : (([100, 97, 116, 97, 98, 97, 115, 101] : List Nat) ++ 61 :: quote_plus db1) ++
            38 :: (([115, 113, 108] : List Nat) ++ 61 :: quote_plus s1) =
          ([115, 113, 108] : List Nat) ++ 61 :: quote_plus s2 := h
      simp only [List.cons_append, List.nil_append, List.append_assoc, List.cons.injEq] at h'
      omega
    | some db2 =>
      have h' : (([100, 97, 116, 97, 98, 97, 115, 101] : List Nat) ++ 61 :: quote_plus db1) ++
            38 :: (([115, 113, 108] : List Nat) ++ 61 :: quote_plus s1) =
          (([100, 97, 116, 97, 98, 97, 115, 101] : List Nat) ++ 61 :: quote_plus db2) ++
            38 :: (([115, 113, 108] : List Nat) ++ 61 :: quote_plus s2) := h
      simp only [List.cons_append, List.nil_append, List.append_assoc, List.cons.injEq,
        true_and] at h'
      obtain ⟨hdb, hrest⟩ := append_sep_inj _ _ _ _ (quote_plus_ne_38 db1) (quote_plus_ne_38 db2) h'
      have hrest' : quote_plus s1 = quote_plus s2 := by
        simp only [List.cons.injEq, true_and] at hrest
        exact hrest
      rw [quote_plus_inj _ _ hdb, quote_plus_inj _ _ hrest']
      exact ⟨rfl, rfl⟩


theorem toBytesBE_length : ∀ (n x : Nat), (toBytesBE n x).length = n := by
  intro n
  induction n with
  | zero => intro x; rfl
  | succ k ih =>
    intro x
    rw [toBytesBE]
    simp only [List.length_append, List.length_cons, List.length_nil, ih]

theorem toBytesBE_lt : ∀ (n x : Nat), ∀ y ∈ toBytesBE n x, y < 256 := by
  intro n
  induction n with
  | zero => intro x y hy; simp [toBytesBE] at hy
  | succ k ih =>
    intro x y hy
    rw [toBytesBE] at hy
    simp only [List.mem_append, List.mem_singleton] at hy
    rcases hy with h | h
    · exact ih _ y h
    · rw [h]; exact Nat.mod_lt _ (by norm_num)

theorem sha256_length (msg : List Nat) : (sha256 msg).length = 32 := by
  rw [sha256]
  simp only [List.length_append, toBytesBE_length]

theorem sha256_lt (msg : List Nat) : ∀ y ∈ sha256 msg, y < 256 := by
  intro y hy
  rw [sha256] at hy
  simp only [List.mem_append] at hy
  rcases hy with ((((((h | h) | h) | h) | h) | h) | h) | h <;> exact toBytesBE_lt _ _ y h

/-- Counterexample for C5: it is not true that distinct databases always give
distinct execution keys.  The key space is the finite set of 32-byte SHA-256
digests while the database space is infinite, so by pigeonhole two distinct
databases share a key (the claimed inequality would make the digest function
injective on an infinite family). -/
theorem C5_execution_key_counterexample :
    ¬ (∀ (db1 db2 sql : List Char), db1 ≠ db2 →
        _get_execution_key (some db1) sql ≠ _get_execution_key (some db2) sql) := by
  intro hall
  obtain ⟨n, m, hnm, hfe⟩ := Finite.exists_ne_map_eq_of_infinite
    (fun n : ℕ => (fun i : Fin 32 =>
      (⟨(sha256 (urlencodeParts
            (executionKeyParts (some (List.replicate (n+1) 'a')) []))).getD i.val 0 % 256,
        Nat.mod_lt _ (by norm_num)⟩ : Fin 256)))
  have hdb : List.replicate (n+1) 'a' ≠ List.replicate (m+1) 'a' := by
    intro he
    have hlen := congrArg List.length he
    simp only [List.length_replicate] at hlen
    exact hnm (by omega)
  refine hall (List.replicate (n+1) 'a') (List.replicate (m+1) 'a') [] hdb ?_
  have hdig : sha256 (urlencodeParts (executionKeyParts (some (List.replicate (n+1) 'a')) [])) =
      sha256 (urlencodeParts (executionKeyParts (some (List.replicate (m+1) 'a')) [])) := by
    apply List.ext_getElem
    · rw [sha256_length, sha256_length]
    · intro i h1 h2
      have hi32 : i < 32 := by rw [sha256_length] at h1; exact h1
      have hfi := congrFun hfe ⟨i, hi32⟩
      simp only [Fin.mk.injEq] at hfi
      rw [List.getD_eq_getElem _ _ h1, List.getD_eq_getElem _ _ h2] at hfi
      have e1 := sha256_lt _ _ (List.getElem_mem h1)
      have e2 := sha256_lt _ _ (List.getElem_mem h2)
      rw [Nat.mod_eq_of_lt e1, Nat.mod_eq_of_lt e2] at hfi
      exact hfi
  rw [_get_execution_key, _get_execution_key, sha256Hex, sha256Hex, hdig]

/-- C5: the execution cache key is a deterministic function of
(database, sql): equal sql texts under an equal database give equal keys; the
key is literally `query-` followed by the SHA-256 hex digest of the URL-encoded
`{database?, sql}` pairs (database omitted when null); and the URL-encoded
canonical representation fed to the hash is injective in (database, sql), so
distinct databases (or distinct sql texts) always produce distinct hash
inputs.  (Distinct keys themselves are not guaranteed: SHA-256 collisions
exist by pigeonhole, see the counterexample.) -/
theorem C5_execution_key :
    (∀ (db : Option (List Char)) (s1 s2 : List Char), s1 = s2 →
        _get_execution_key db s1 = _get_execution_key db s2)
    ∧ (∀ (db : Option (List Char)) (s : List Char),
        _get_execution_key db s = specExecutionKey db s)
    ∧ (∀ (d1 d2 : Option (List Char)) (s1 s2 : List Char),
        urlencodeParts (executionKeyParts d1 s1) = urlencodeParts (executionKeyParts d2 s2) →
        d1 = d2 ∧ s1 = s2) :=
  ⟨fun _ _ _ h => by rw [h], fun _ _ => rfl, urlencode_parts_inj⟩

/-- Witness for C5: concrete instances discharging each hypothesis. -/
theorem C5_execution_key_witness :
    ((['S'] : List Char) = ['S'] ∧
      _get_execution_key (some ['d', 'b']) ['S'] = _get_execution_key (some ['d', 'b']) ['S'])
    ∧ _get_execution_key none ['S'] = specExecutionKey none ['S']
    ∧ ((some ['d'] : Option (List Char)) = some ['d'] ∧ (['S'] : List Char) = ['S']) :=
  ⟨⟨rfl, C5_execution_key.1 (some ['d', 'b']) ['S'] ['S'] rfl⟩,
    C5_execution_key.2.1 none ['S'],
    C5_execution_key.2.2 (some ['d']) (some ['d']) ['S'] ['S'] rfl⟩


end Pallas
